import Mathlib

/-!
Verification development for the crann state-synchronisation library.

We give a shallow embedding of the parts of the source relevant to the
frozen claims:

* the JavaScript object model used by `crann.ts` (`Crann` class in the
  current source file, here called part_008): objects are ordered
  association lists with string keys, spread (`{...a, ...b}`) is a left
  fold of single-key insertion, property read is first-match lookup;
* the config model from `model/crann.model.ts`: `ConfigItem` with
  `default`, `partition`, `persist`, and action entries;
* the state store (`setServiceState`, `setInstanceState`, `set`, `get`,
  `notify`, `persist`, `hydrate`), with storage writes, persist
  invocations, notifications and posts recorded as an event trace and
  the storage backend modelled as a fallible write function;
* the RPC endpoint from `rpc/endpoint.ts` (part_006): the pending-call
  table keyed by correlation id, and the handler-side processing of an
  incoming Call message (action lookup, validate, target check, handler).
-/

namespace Crann

/-- Runtime values stored in crann state fields.  The source is generic
over arbitrary JSON-like values; scalars suffice for the claims. -/
inductive Value where
  | vNat : Nat → Value
  | vStr : String → Value
  | vBool : Bool → Value
deriving DecidableEq, Repr

/-- First-`some` choice on options, used to reason about JS property
lookup through spreads (`b`'s binding shadows `a`'s). -/
def oOr {β : Type} (a b : Option β) : Option β :=
  match a with
  | some v => some v
  | none => b

@[simp] theorem oOr_some {β : Type} (v : β) (b : Option β) : oOr (some v) b = some v := rfl

@[simp] theorem oOr_none {β : Type} (b : Option β) : oOr (none : Option β) b = b := rfl

theorem oOr_assoc {β : Type} (a b c : Option β) : oOr (oOr a b) c = oOr a (oOr b c) := by
  cases a <;> rfl

@[simp] theorem oOr_none_right {β : Type} (a : Option β) : oOr a (none : Option β) = a := by
  cases a <;> rfl

theorem oOr_self_right {β : Type} (a b : Option β) : oOr a (oOr a b) = oOr a b := by
  cases a <;> rfl

section AssocList

variable {α β : Type} [DecidableEq α]

/-- JS property read: first matching key (association lists built by the
embedding never repeat a key, mirroring JS objects / Maps). -/
def alGet : List (α × β) → α → Option β
  | [], _ => none
  | (k, v) :: rest, q => if k = q then some v else alGet rest q

/-- JS property write `m[k] = v`: overwrite in place if the key exists,
otherwise append (insertion order is preserved, as for JS objects). -/
def alInsert : List (α × β) → α → β → List (α × β)
  | [], k, v => [(k, v)]
  | (k', v') :: rest, k, v =>
    if k' = k then (k', v) :: rest else (k', v') :: alInsert rest k v

/-- JS `Map.delete` / key removal. -/
def alErase : List (α × β) → α → List (α × β)
  | [], _ => []
  | (k, v) :: rest, q => if k = q then alErase rest q else (k, v) :: alErase rest q

/-- The keys of an object, in insertion order (`Object.keys`). -/
def alKeys (m : List (α × β)) : List α := m.map Prod.fst

/-- Well-formedness of an embedded JS object: keys are pairwise distinct.
Every runtime JS object satisfies this. -/
def NodupKeys (m : List (α × β)) : Prop := (alKeys m).Nodup

instance decNodupKeys (m : List (α × β)) : Decidable (NodupKeys m) :=
  inferInstanceAs (Decidable (alKeys m).Nodup)

theorem alGet_alInsert (m : List (α × β)) (k : α) (v : β) (q : α) :
    alGet (alInsert m k v) q = if k = q then some v else alGet m q := by
  induction m with
  | nil => simp [alInsert, alGet]
  | cons kv rest ih =>
    obtain ⟨k', v'⟩ := kv
    by_cases hk : k' = k
    · subst hk
      by_cases hq : k' = q
      · subst hq; simp [alInsert, alGet]
      · simp [alInsert, alGet, hq]
    · by_cases hq : k' = q
      · subst hq
        have : ¬ k = k' := fun h => hk h.symm
        simp [alInsert, alGet, hk, this]
      · simp [alInsert, alGet, hk, hq, ih]

theorem alGet_append (a b : List (α × β)) (q : α) :
    alGet (a ++ b) q = oOr (alGet a q) (alGet b q) := by
  induction a with
  | nil => simp [alGet]
  | cons kv rest ih =>
    by_cases h : kv.1 = q
    · simp [alGet, h]
    · simp [alGet, h, ih]

theorem alGet_eq_none_iff (m : List (α × β)) (q : α) :
    alGet m q = none ↔ q ∉ alKeys m := by
  induction m with
  | nil => simp [alGet, alKeys]
  | cons kv rest ih =>
    by_cases h : kv.1 = q
    · simp [alGet, h, alKeys]
    · have h2 : ¬ q = kv.1 := fun hq => h hq.symm
      simp [alGet, h, alKeys, ih, h2]

theorem alGet_mem (m : List (α × β)) (k : α) (v : β)
    (hnd : NodupKeys m) (hm : (k, v) ∈ m) : alGet m k = some v := by
  induction m with
  | nil => cases hm
  | cons kv rest ih =>
    rcases List.mem_cons.mp hm with hm1 | hm1
    · rw [← hm1]; simp [alGet]
    · have hnd2 : (kv.1 :: alKeys rest).Nodup := by
        simpa [NodupKeys, alKeys] using hnd
      have hk : kv.1 ≠ k := by
        intro hh
        have hmem : k ∈ alKeys rest := List.mem_map_of_mem Prod.fst hm1
        exact (List.nodup_cons.mp hnd2).1 (hh.symm ▸ hmem)
      have hnd' : NodupKeys rest := by
        have := (List.nodup_cons.mp hnd2).2
        simpa [NodupKeys, alKeys] using this
      simp [alGet, hk, ih hnd' hm1]

theorem alGet_alErase_self (m : List (α × β)) (q : α) :
    alGet (alErase m q) q = none := by
  induction m with
  | nil => simp [alErase, alGet]
  | cons kv rest ih =>
    obtain ⟨k, v⟩ := kv
    by_cases h : k = q
    · simpa [alErase, h] using ih
    · simpa [alErase, alGet, h] using ih

theorem alGet_alErase_ne (m : List (α × β)) (q r : α) (h : r ≠ q) :
    alGet (alErase m q) r = alGet m r := by
  induction m with
  | nil => simp [alErase, alGet]
  | cons kv rest ih =>
    obtain ⟨k, v⟩ := kv
    have hqr : ¬ q = r := fun hh => h hh.symm
    by_cases hq : k = q
    · simpa [alErase, alGet, hq, hqr] using ih
    · by_cases hr : k = r
      · simp [alErase, alGet, hq, hr, h]
      · simpa [alErase, alGet, hq, hr] using ih

theorem alKeys_alInsert (m : List (α × β)) (k : α) (v : β) :
    alKeys (alInsert m k v) = if k ∈ alKeys m then alKeys m else alKeys m ++ [k] := by
  induction m with
  | nil => simp [alInsert, alKeys]
  | cons kv rest ih =>
    by_cases hh : kv.1 = k
    · simp [alInsert, hh, alKeys]
    · have hne : ¬ k = kv.1 := fun h => hh h.symm
      simp only [alInsert, hh, if_false, alKeys, List.map_cons, List.mem_cons, hne, false_or]
      by_cases hmem : k ∈ List.map Prod.fst rest
      · simp only [alKeys] at ih
        simp only [hmem, if_true] at ih ⊢
        rw [ih]
      · simp only [alKeys] at ih
        simp only [hmem, if_false] at ih ⊢
        rw [ih, List.cons_append]

theorem nodupKeys_alInsert (m : List (α × β)) (k : α) (v : β)
    (h : NodupKeys m) : NodupKeys (alInsert m k v) := by
  unfold NodupKeys at h ⊢
  rw [alKeys_alInsert]
  by_cases hmem : k ∈ alKeys m
  · simpa [hmem] using h
  · simp only [hmem, if_false]
    refine List.Nodup.append h (List.nodup_singleton k) ?_
    intro a ha hb
    have hak : a = k := by simpa using hb
    exact hmem (hak ▸ ha)

end AssocList

/-- A JS object with string keys and crann values, in insertion order. -/
abbrev Obj := List (String × Value)

/-- JS object spread `{...a, ...b}`: start from a copy of `a` and assign
every property of `b` in order (later assignments shadow earlier ones). -/
def objSpread (a b : Obj) : Obj :=
  b.foldl (fun acc kv => alInsert acc kv.1 kv.2) a

/-- The binding that survives spreading `m` over something: the last
occurrence of the key in `m` wins. -/
def objLast (m : Obj) (q : String) : Option Value := alGet m.reverse q

theorem alKeys_reverse (m : Obj) : alKeys m.reverse = (alKeys m).reverse := by
  simp [alKeys]

theorem objLast_eq_none_iff (m : Obj) (q : String) :
    objLast m q = none ↔ q ∉ alKeys m := by
  rw [objLast, alGet_eq_none_iff, alKeys_reverse, List.mem_reverse]

theorem objLast_eq_alGet (m : Obj) (q : String) (h : NodupKeys m) :
    objLast m q = alGet m q := by
  by_cases hq : q ∈ alKeys m
  · rcases List.mem_map.mp hq with ⟨⟨k, v⟩, hmem, hfst⟩
    have hk : k = q := hfst
    subst hk
    have hrev : NodupKeys m.reverse := by
      unfold NodupKeys
      rw [alKeys_reverse]
      exact List.nodup_reverse.mpr h
    rw [alGet_mem m k v h hmem, objLast,
      alGet_mem m.reverse k v hrev (List.mem_reverse.mpr hmem)]
  · rw [(objLast_eq_none_iff m q).mpr hq, (alGet_eq_none_iff m q).mpr hq]

theorem alGet_objSpread (a b : Obj) (q : String) :
    alGet (objSpread a b) q = oOr (objLast b q) (alGet a q) := by
  induction b generalizing a with
  | nil => simp [objSpread, objLast, alGet]
  | cons kv rest ih =>
    obtain ⟨k, v⟩ := kv
    have hstep : objSpread a ((k, v) :: rest) = objSpread (alInsert a k v) rest := rfl
    rw [hstep, ih, alGet_alInsert]
    have hlast : objLast ((k, v) :: rest) q
        = oOr (objLast rest q) (if k = q then some v else none) := by
      simp only [objLast, List.reverse_cons, alGet_append]
      simp [alGet]
    rw [hlast, oOr_assoc]
    by_cases hk : k = q <;> simp [hk]

theorem nodupKeys_objSpread (a b : Obj) (h : NodupKeys a) :
    NodupKeys (objSpread a b) := by
  induction b generalizing a with
  | nil => exact h
  | cons kv rest ih => exact ih (alInsert a kv.1 kv.2) (nodupKeys_alInsert a kv.1 kv.2 h)

theorem alGet_objSpread_nodup (a b : Obj) (q : String) (h : NodupKeys b) :
    alGet (objSpread a b) q = oOr (alGet b q) (alGet a q) := by
  rw [alGet_objSpread, objLast_eq_alGet b q h]

/-- Modelled from the spec: `crann.ts` imports `deepEqual` from
`utils/deepEqual`, a file not among the provided sources; the spec
describes it as "a deep-equality check between prior and candidate merged
state".  For objects over scalar values deep equality is key-wise
equality: the same stored value (or absence) at every key. -/
def deepEqual (a b : Obj) : Bool :=
  (alKeys a ++ alKeys b).all fun q => alGet a q == alGet b q

theorem deepEqual_iff (a b : Obj) :
    deepEqual a b = true ↔ ∀ q, alGet a q = alGet b q := by
  constructor
  · intro h q
    by_cases ha : q ∈ alKeys a
    · have := List.all_eq_true.mp h q (List.mem_append.mpr (Or.inl ha))
      simpa using this
    · by_cases hb : q ∈ alKeys b
      · have := List.all_eq_true.mp h q (List.mem_append.mpr (Or.inr hb))
        simpa using this
      · rw [(alGet_eq_none_iff a q).mpr ha, (alGet_eq_none_iff b q).mpr hb]
  · intro h
    apply List.all_eq_true.mpr
    intro q _
    simpa using h q

/-- Spreading the same update twice is a no-op for deep equality: the
candidate of the second identical `set` deep-equals the state the first
one produced. -/
theorem deepEqual_objSpread_self (a b : Obj) :
    deepEqual (objSpread a b) (objSpread (objSpread a b) b) = true := by
  rw [deepEqual_iff]
  intro q
  rw [alGet_objSpread, alGet_objSpread, alGet_objSpread]
  exact (oOr_self_right _ _).symm

/-! ### Config model (`model/crann.model.ts`) -/

/-- `Partition` constants: `Instance: "instance"`, `Service: "service"`. -/
inductive Partition where
  | instanceP
  | service
deriving DecidableEq, Repr

/-- `Persistence` constants `"session"` and `"local"`; the `"none"` value
behaves exactly like an absent `persist` property (`item.persist || "none"`),
so we fold it into `Option.none` of the `persist` field. -/
inductive Persistence where
  | session
  | localP
deriving DecidableEq, Repr

/-- `ConfigItem<T>`: `{ default, partition?, persist? }`. -/
structure ConfigItem where
  default : Value
  partition : Option Partition
  persist : Option Persistence
deriving DecidableEq, Repr

/-- A config entry is a state item (`ConfigItem`, has a `default`
property) or an action definition (has a `handler` property);
`isConfigItem`/`isStateItem` discriminate by probing for `default`. -/
inductive CfgEntry where
  | item : ConfigItem → CfgEntry
  | action : CfgEntry
deriving DecidableEq, Repr

/-- The user config: a JS object mapping names to entries. -/
abbrev Config := List (String × CfgEntry)

/-- `item.partition === "instance"`. -/
def isInstanceItem (it : ConfigItem) : Bool := it.partition == some Partition.instanceP

/-- `!item.partition || item.partition === Partition.Service`. -/
def isServiceItem (it : ConfigItem) : Bool :=
  it.partition == none || it.partition == some Partition.service

/-- `initializeServiceDefault`: collect `item.default` for every state
item whose partition is absent or `Service`, in config order. -/
def serviceDefault : Config → Obj
  | [] => []
  | (k, CfgEntry.item it) :: rest =>
    if isServiceItem it then (k, it.default) :: serviceDefault rest else serviceDefault rest
  | (_, CfgEntry.action) :: rest => serviceDefault rest

/-- `initializeInstanceDefault`: collect `item.default` for every state
item declared `partition: "instance"`, in config order. -/
def instanceDefault : Config → Obj
  | [] => []
  | (k, CfgEntry.item it) :: rest =>
    if isInstanceItem it then (k, it.default) :: instanceDefault rest else instanceDefault rest
  | (_, CfgEntry.action) :: rest => instanceDefault rest

/-! ### State store (`Crann` class in crann.ts, part_008) -/

/-- The mutable fields of the `Crann` singleton relevant to the claims:
the canonical service state and the per-instance state map. -/
structure Store where
  serviceState : Obj
  instances : List (String × Obj)
deriving DecidableEq, Repr

/-- The two storage areas of the persistence backend
(`browser.storage.session` / `browser.storage.local`). -/
inductive StorageArea where
  | session
  | localArea
deriving DecidableEq, Repr

/-- Destination of a `porter.post`: a resolved agent location, or an
agent key used for the broadcast path. -/
inductive PostTarget where
  | loc : String → PostTarget
  | agentKey : String → PostTarget
deriving DecidableEq, Repr

/-- Observable side effects of the store pipeline, in program order:
an invocation of `persist`, an individual storage write, an invocation
of `notify`, and an outgoing `stateUpdate` post. -/
inductive Event where
  | persistCall : Obj → Event
  | write : StorageArea → String → Value → Event
  | notifyCall : Obj → Option String → Event
  | post : PostTarget → Obj → Event
deriving DecidableEq, Repr

/-- JS truthiness of the optional string key parameters
(`if (key && ...)`): present and non-empty. -/
def keyTruthy : Option String → Bool
  | some s => !(s == "")
  | none => false

/-- `notify(changes, key?)`: always invokes the local state-change
listeners (recorded as the `notifyCall` event); then, if a key was given
and the agent's location resolves (`getAgentById(key)?.info.location`),
posts the delta to that location only, otherwise posts it to every
registered instance key. -/
def notifyEvents (resolve : String → Option String) (insts : List (String × Obj))
    (changes : Obj) (key : Option String) : List Event :=
  Event.notifyCall changes key ::
    (match key with
     | some k =>
       if k == "" then insts.map fun kv => Event.post (PostTarget.agentKey kv.1) changes
       else
         match resolve k with
         | some l => [Event.post (PostTarget.loc l) changes]
         | none => insts.map fun kv => Event.post (PostTarget.agentKey kv.1) changes
     | none => insts.map fun kv => Event.post (PostTarget.agentKey kv.1) changes)

/-- Effective persistence tier of a config key
(`const persistence = item.persist || "none"`); action entries have no
`persist` property and so fall through to `"none"`.  `persist` is only
ever invoked on objects whose keys are state-item config keys. -/
def effArea (cfg : Config) (k : String) : Option StorageArea :=
  match alGet cfg k with
  | some (CfgEntry.item it) =>
    match it.persist with
    | some Persistence.session => some StorageArea.session
    | some Persistence.localP => some StorageArea.localArea
    | none => none
  | _ => none

/-- The `for (const key in state)` loop of `persist`, on the explicit
`state` argument: one awaited storage write per field with a
session/local tier, stopping with a rejection as soon as an awaited
write rejects.  The backend returns `none` on success and `some e` when
the write rejects with error `e`. -/
def persistLoop (cfg : Config) (pfx : String)
    (backend : StorageArea → String → Value → Option String) :
    Obj → List Event × Except String Unit
  | [] => ([], Except.ok ())
  | (k, v) :: rest =>
    match effArea cfg k with
    | some area =>
      match backend area (pfx ++ k) v with
      | none =>
        let r := persistLoop cfg pfx backend rest
        (Event.write area (pfx ++ k) v :: r.1, r.2)
      | some e => ([Event.write area (pfx ++ k) v], Except.error e)
    | none => persistLoop cfg pfx backend rest

/-- `persist(state)` with an explicit partial state. -/
def persist (cfg : Config) (pfx : String)
    (backend : StorageArea → String → Value → Option String) (state : Obj) :
    List Event × Except String Unit :=
  let r := persistLoop cfg pfx backend state
  (Event.persistCall state :: r.1, r.2)

instance decEqExceptStringUnit : DecidableEq (Except String Unit) := fun a b =>
  match a, b with
  | Except.error e1, Except.error e2 =>
    if h : e1 = e2 then Decidable.isTrue (by rw [h])
    else Decidable.isFalse (fun hh => h (Except.error.inj hh))
  | Except.ok u1, Except.ok u2 => Decidable.isTrue (by cases u1; cases u2; rfl)
  | Except.error _, Except.ok _ => Decidable.isFalse (fun hh => by cases hh)
  | Except.ok _, Except.error _ => Decidable.isFalse (fun hh => by cases hh)

/-- Result of one store operation: the new store, the recorded events
and the settlement of the promise the operation returned. -/
structure OpResult where
  store : Store
  events : List Event
  promise : Except String Unit
deriving DecidableEq, Repr

/-- `setServiceState(state)`: build the merged candidate
`{...serviceState, ...state}`; if it deep-equals the prior state the
call is skipped entirely; otherwise assign it, `await persist(state)`
(a rejection propagates out before `notify` runs), then notify all. -/
def setServiceState (cfg : Config) (pfx : String)
    (backend : StorageArea → String → Value → Option String)
    (resolve : String → Option String) (st : Store) (state : Obj) : OpResult :=
  let update := objSpread st.serviceState state
  if deepEqual st.serviceState update then ⟨st, [], Except.ok ()⟩
  else
    let st1 : Store := ⟨update, st.instances⟩
    let p := persist cfg pfx backend state
    match p.2 with
    | Except.error e => ⟨st1, p.1, Except.error e⟩
    | Except.ok _ =>
      ⟨st1, p.1 ++ notifyEvents resolve st1.instances state none, Except.ok ()⟩

/-- `setInstanceState(key, state)`: current state is the registered
entry or the instance defaults; merge, skip when deep-equal, otherwise
store the merged entry under the key and notify with the key. -/
def setInstanceState (cfg : Config) (resolve : String → Option String)
    (st : Store) (key : String) (state : Obj) : Store × List Event :=
  let current := (alGet st.instances key).getD (instanceDefault cfg)
  let update := objSpread current state
  if deepEqual current update then (st, [])
  else
    let insts := alInsert st.instances key update
    (⟨st.serviceState, insts⟩, notifyEvents resolve insts state (some key))

/-- The splitting loop of `set`: route each payload key whose config
entry is a state item into the instance bucket
(`item.partition === "instance"`) or the worker bucket
(`!item.partition || item.partition === Partition.Service`); payload
keys with no state-item config entry are dropped. -/
def setSplit (cfg : Config) : Obj → Obj × Obj
  | [] => ([], [])
  | (k, v) :: rest =>
    let tail := setSplit cfg rest
    match alGet cfg k with
    | some (CfgEntry.item it) =>
      if isInstanceItem it then ((k, v) :: tail.1, tail.2)
      else if isServiceItem it then (tail.1, (k, v) :: tail.2)
      else tail
    | _ => tail

/-- Result of `set`: the new store, the events of both inner calls, the
settlement of the promise `set` itself returns, and the rejections of
the inner `setInstanceState`/`setServiceState` promises that `set`
starts without awaiting. -/
structure SetResult where
  store : Store
  events : List Event
  promise : Except String Unit
  unhandled : List String
deriving DecidableEq, Repr

/-- The first inner call of `set`: `setInstanceState(key, instance)`
when a truthy key was supplied and the instance bucket is non-empty
(`if (key && Object.keys(instance).length > 0)`), otherwise nothing. -/
def setInstancePhase (cfg : Config) (resolve : String → Option String)
    (st : Store) (state : Obj) (key : Option String) : Store × List Event :=
  match key with
  | some k =>
    if !(k == "") && ((setSplit cfg state).1.length != 0) then
      setInstanceState cfg resolve st k (setSplit cfg state).1
    else (st, [])
  | none => (st, [])

/-- `set(state, key?)`: split the payload, run the instance phase, then
run `setServiceState(worker)` when the worker bucket is non-empty
(`if (Object.keys(worker).length > 0)`).  Neither inner call is
awaited, so the promise returned by `set` always resolves; an inner
persistence rejection is recorded as an unhandled rejection. -/
def setOp (cfg : Config) (pfx : String)
    (backend : StorageArea → String → Value → Option String)
    (resolve : String → Option String) (st : Store) (state : Obj)
    (key : Option String) : SetResult :=
  if (setSplit cfg state).2.length != 0 then
    let r := setServiceState cfg pfx backend resolve
      (setInstancePhase cfg resolve st state key).1 (setSplit cfg state).2
    ⟨r.store, (setInstancePhase cfg resolve st state key).2 ++ r.events, Except.ok (),
      match r.promise with
      | Except.error e => [e]
      | Except.ok _ => []⟩
  else ⟨(setInstancePhase cfg resolve st state key).1,
    (setInstancePhase cfg resolve st state key).2, Except.ok (), []⟩

/-- `get(key?)`: without a truthy key, a copy of the service state
(`{...serviceState, ...{}}`); with one, the service state overlaid with
the instance entry (spreading `undefined` contributes nothing). -/
def getOp (st : Store) (key : Option String) : Obj :=
  match key with
  | some k =>
    if k == "" then st.serviceState
    else objSpread st.serviceState ((alGet st.instances k).getD [])
  | none => st.serviceState

/-- `removePrefix(key)`: strip the storage prefix when the key starts
with it (`key.replace(prefix, "")` removes the first occurrence, which
for a key passing `startsWith` is the leading one).  Stated on the
character lists underlying the strings. -/
def stripPfx (pfx key : String) : String :=
  if pfx.data.isPrefixOf key.data then String.mk (key.data.drop pfx.data.length) else key

/-- The `for (const prefixedKey in combined)` loop of `hydrate`:
overlay `combined[prefixedKey]` under the stripped key whenever the
config has an own property of that name.  For a well-formed `combined`
(distinct keys) the looked-up value is the entry's own value, which the
`getD` fallback mirrors. -/
def hydrateUpdate (cfg : Config) (pfx : String) (combined : Obj) :
    Obj → Obj → Obj
  | [], upd => upd
  | (pk, v) :: rest, upd =>
    let k := stripPfx pfx pk
    if (alGet cfg k).isSome then
      hydrateUpdate cfg pfx combined rest (alInsert upd k ((alGet combined pk).getD v))
    else hydrateUpdate cfg pfx combined rest upd

/-- `hydrate()`: read both storage areas, overlay session entries over
local ones, collect the updates for configured names with the prefix
stripped, and overlay them onto the default service state. -/
def hydrateState (cfg : Config) (pfx : String) (localS sessionS : Obj) : Obj :=
  let combined := objSpread localS sessionS
  let upd := hydrateUpdate cfg pfx combined combined []
  objSpread (serviceDefault cfg) upd

/-! ### RPC endpoint (`rpc/endpoint.ts`, part_006) -/

/-- Incoming wire messages on the caller side of an endpoint: the
`result`, `error` and `release` variants of the tagged union (the outer
tuple element is the correlation id). -/
inductive InMsg where
  | result : Nat → Value → InMsg
  | error : Nat → String → InMsg
  | release : String → InMsg
deriving DecidableEq, Repr

/-- Invocation of a stored pending-call callback: resolution with a
result value or rejection with an error message.  The tag identifies
the stored callback (the promise continuation of one `call`). -/
inductive CbEvent where
  | resolved : Nat → Value → CbEvent
  | rejected : Nat → String → CbEvent
deriving DecidableEq, Repr

/-- Caller-side endpoint state: the `callbacks` map from correlation id
to the stored continuation (represented by an opaque tag) and the
`retainedObjects` keys. -/
structure EndpointState where
  callbacks : List (Nat × Nat)
  retained : List String
deriving DecidableEq, Repr

/-- One step of the endpoint's message listener for response messages:
a `result`/`error` with a registered correlation id invokes the stored
callback once and deletes the entry; with no registered entry nothing
happens; `release` only clears retained-object tracking. -/
def processMessage (st : EndpointState) (m : InMsg) :
    EndpointState × List (Nat × CbEvent) :=
  match m with
  | InMsg.result id v =>
    match alGet st.callbacks id with
    | some tag => (⟨alErase st.callbacks id, st.retained⟩, [(id, CbEvent.resolved tag v)])
    | none => (st, [])
  | InMsg.error id msg =>
    match alGet st.callbacks id with
    | some tag => (⟨alErase st.callbacks id, st.retained⟩, [(id, CbEvent.rejected tag msg)])
    | none => (st, [])
  | InMsg.release rid => (⟨st.callbacks, st.retained.filter fun r => !(r == rid)⟩, [])

/-- Process a sequence of incoming messages in delivery order,
accumulating the callback invocations. -/
def processAll (st : EndpointState) : List InMsg → EndpointState × List (Nat × CbEvent)
  | [] => (st, [])
  | m :: rest =>
    let r := processMessage st m
    let r2 := processAll r.1 rest
    (r2.1, r.2 ++ r2.2)

/-- Does the message carry a Result or Error for this correlation id? -/
def isResponseFor (m : InMsg) (id : Nat) : Bool :=
  match m with
  | InMsg.result i _ => i == id
  | InMsg.error i _ => i == id
  | InMsg.release _ => false

/-- Number of callback invocations for one correlation id over a
message sequence. -/
def invocationsFor (st : EndpointState) (msgs : List InMsg) (id : Nat) : Nat :=
  (processAll st msgs).2.countP fun e => e.1 == id

/-- What an action's `validate` hook throws, if anything: an `Error`
instance carrying a message, or some non-`Error` value. -/
inductive Thrown where
  | err : String → Thrown
  | nonErr : Thrown
deriving DecidableEq, Repr

/-- Handler-side view of one registered action: the optional `validate`
hook (modelled by its throwing behaviour on given arguments) and the
eventual settlement of the `handler` promise. -/
structure ActionSpec where
  validate : Option (List Value → Option Thrown)
  handler : List Value → Except String Value

/-- Messages the handler side posts back: an `error` or `result`
variant, tagged with the echoed outer correlation id, the action id of
the call, and the echoed caller address. -/
inductive OutMsg where
  | errorMsg : Nat → String → String → Option String → OutMsg
  | resultMsg : Nat → String → Value → Option String → OutMsg
deriving DecidableEq, Repr

/-- Observable outcome of processing one incoming Call: the reply
posted back, and whether the `validate` hook and the action `handler`
were invoked. -/
structure CallProcessing where
  reply : OutMsg
  validateRan : Bool
  handlerRan : Bool
deriving DecidableEq, Repr

/-- Continuation of the Call branch after `validate` did not throw:
the target check (`if (!target)` replies with the fixed message and
returns before the handler), then the handler invocation whose
fulfillment or rejection is posted back. -/
def handleAfterValidate (act : ActionSpec) (corrId : Nat) (callId : String)
    (args : List Value) (target : Option String) (vRan : Bool) : CallProcessing :=
  match target with
  | none => ⟨OutMsg.errorMsg corrId callId "No target provided for action call" none, vRan, false⟩
  | some t =>
    match act.handler args with
    | Except.ok res => ⟨OutMsg.resultMsg corrId callId res (some t), vRan, true⟩
    | Except.error m => ⟨OutMsg.errorMsg corrId callId m (some t), vRan, true⟩

/-- The Call branch of the endpoint's message listener: look the action
up (missing action replies `"Action not found"` untouched by the try
block), run `validate` inside the try block (an `Error` throw replies
with its message, a non-`Error` throw with `"Unknown error occurred"`,
either way before the target check and without invoking the handler),
then the target check and the handler. -/
def handleCall (actions : List (String × ActionSpec)) (corrId : Nat)
    (callId : String) (args : List Value) (target : Option String) : CallProcessing :=
  match alGet actions callId with
  | none => ⟨OutMsg.errorMsg corrId callId "Action not found" target, false, false⟩
  | some act =>
    match act.validate with
    | some vf =>
      match vf args with
      | some (Thrown.err m) => ⟨OutMsg.errorMsg corrId callId m target, true, false⟩
      | some Thrown.nonErr =>
        ⟨OutMsg.errorMsg corrId callId "Unknown error occurred" target, true, false⟩
      | none => handleAfterValidate act corrId callId args target true
    | none => handleAfterValidate act corrId callId args target false

/-! ### Derived notions used by the claim statements -/

/-- Is the event an invocation of `notify` (the notification spy point)? -/
def isNotifyEv : Event → Bool
  | Event.notifyCall _ _ => true
  | _ => false

/-- Is the event an invocation of `persist` (the persistence spy point)? -/
def isPersistEv : Event → Bool
  | Event.persistCall _ => true
  | _ => false

/-- Is the event an individual storage write? -/
def isWriteEv : Event → Bool
  | Event.write _ _ _ => true
  | _ => false

/-- Is the event a storage write to the given storage key? -/
def isWriteTo (q : String) : Event → Bool
  | Event.write _ s _ => s == q
  | _ => false

/-- Is the event an outgoing `stateUpdate` post? -/
def isPostEv : Event → Bool
  | Event.post _ _ => true
  | _ => false

/-- The current per-instance state `set`/`setInstanceState` compares
against: the registered entry or the instance defaults. -/
def instCurrent (cfg : Config) (st : Store) (k : String) : Obj :=
  (alGet st.instances k).getD (instanceDefault cfg)

/-- The merged candidates of a `set(x, key?)` call deep-equal the
current state, for each inner branch that would actually run. -/
def SetCandidatesUnchanged (cfg : Config) (st : Store) (x : Obj)
    (key : Option String) : Prop :=
  (∀ k, key = some k → k ≠ "" → (setSplit cfg x).1 ≠ [] →
    deepEqual (instCurrent cfg st k)
      (objSpread (instCurrent cfg st k) (setSplit cfg x).1) = true)
  ∧ ((setSplit cfg x).2 ≠ [] →
    deepEqual st.serviceState (objSpread st.serviceState (setSplit cfg x).2) = true)

/-- What the hydrate loop leaves under field `f` after processing the
given storage entries: the contribution of the last entry whose
prefix-stripped key is a configured name equal to `f`. -/
def hydContrib (cfg : Config) (pfx : String) (combined : Obj) :
    Obj → String → Option Value
  | [], _ => none
  | (pk, v) :: rest, f =>
    oOr (hydContrib cfg pfx combined rest f)
      (if stripPfx pfx pk = f then
        (if (alGet cfg f).isSome then some ((alGet combined pk).getD v) else none)
       else none)

/-! ### Concrete fixtures for witnesses and counterexamples -/

/-- A small config: a persisted shared counter and a per-instance name,
mirroring the spec's concrete scenario. -/
def exCfg : Config :=
  [("counter", CfgEntry.item ⟨Value.vNat 0, some Partition.service, some Persistence.localP⟩),
   ("name", CfgEntry.item ⟨Value.vStr "", some Partition.instanceP, none⟩)]

/-- A store with the default service state and one connected instance. -/
def exStore : Store :=
  ⟨[("counter", Value.vNat 0)], [("A", [("name", Value.vStr "")])]⟩

/-- A storage backend whose writes always succeed. -/
def okBackend : StorageArea → String → Value → Option String := fun _ _ _ => none

/-- A storage backend whose writes always reject with "boom". -/
def failBackend : StorageArea → String → Value → Option String := fun _ _ _ => some "boom"

/-- An agent registry that resolves no location. -/
def noResolve : String → Option String := fun _ => none

/-- An example action table: `inc` validates that its single argument
is a natural and its handler fulfils; the validate hook throws an
`Error` on `[]` and a non-`Error` value on `[vBool true]`. -/
def exActions : List (String × ActionSpec) :=
  [("inc", ⟨some (fun args =>
      match args with
      | [] => some (Thrown.err "amount required")
      | [Value.vBool true] => some Thrown.nonErr
      | _ => none),
    fun _ => Except.ok (Value.vNat 1)⟩),
   ("noop", ⟨none, fun _ => Except.ok (Value.vNat 0)⟩)]

/-! ### Supporting lemmas -/

theorem deepEqual_refl (a : Obj) : deepEqual a a = true := by
  rw [deepEqual_iff]
  intro q
  rfl

theorem objSpread_nil (a : Obj) : objSpread a [] = a := rfl

theorem length_bne_zero_iff {γ : Type} (l : List γ) : (l.length != 0) = true ↔ l ≠ [] := by
  cases l <;> simp

theorem setInstanceState_serviceState (cfg : Config) (resolve : String → Option String)
    (st : Store) (k : String) (s : Obj) :
    ((setInstanceState cfg resolve st k s).1).serviceState = st.serviceState := by
  by_cases h : deepEqual ((alGet st.instances k).getD (instanceDefault cfg))
      (objSpread ((alGet st.instances k).getD (instanceDefault cfg)) s) = true
  · simp [setInstanceState, h]
  · simp [setInstanceState, h]

theorem setServiceState_instances (cfg : Config) (pfx : String)
    (backend : StorageArea → String → Value → Option String)
    (resolve : String → Option String) (st : Store) (s : Obj) :
    (setServiceState cfg pfx backend resolve st s).store.instances = st.instances := by
  by_cases h : deepEqual st.serviceState (objSpread st.serviceState s) = true
  · simp [setServiceState, h]
  · simp only [setServiceState, h, if_false, Bool.false_eq_true]
    cases hp : (persist cfg pfx backend s).2 <;> simp [hp]

theorem setInstanceState_noop (cfg : Config) (resolve : String → Option String)
    (st : Store) (k : String) (s : Obj)
    (h : deepEqual (instCurrent cfg st k) (objSpread (instCurrent cfg st k) s) = true) :
    setInstanceState cfg resolve st k s = (st, []) := by
  unfold setInstanceState
  rw [show (alGet st.instances k).getD (instanceDefault cfg) = instCurrent cfg st k from rfl]
  simp [h]

theorem setServiceState_noop (cfg : Config) (pfx : String)
    (backend : StorageArea → String → Value → Option String)
    (resolve : String → Option String) (st : Store) (s : Obj)
    (h : deepEqual st.serviceState (objSpread st.serviceState s) = true) :
    setServiceState cfg pfx backend resolve st s = ⟨st, [], Except.ok ()⟩ := by
  unfold setServiceState
  simp [h]

theorem persistLoop_events_write (cfg : Config) (pfx : String)
    (backend : StorageArea → String → Value → Option String) (s : Obj) :
    ∀ ev ∈ (persistLoop cfg pfx backend s).1, isWriteEv ev = true := by
  induction s with
  | nil =>
    intro ev h
    simp [persistLoop] at h
  | cons kv rest ih =>
    intro ev h
    obtain ⟨k, v⟩ := kv
    cases harea : effArea cfg k with
    | none =>
      simp only [persistLoop, harea] at h
      exact ih ev h
    | some area =>
      cases hb : backend area (pfx ++ k) v with
      | none =>
        simp only [persistLoop, harea, hb] at h
        rcases List.mem_cons.mp h with h1 | h1
        · rw [h1]; rfl
        · exact ih ev h1
      | some e =>
        simp only [persistLoop, harea, hb, List.mem_singleton] at h
        rw [h]; rfl

theorem write_not_notify (ev : Event) (h : isWriteEv ev = true) : isNotifyEv ev = false := by
  cases ev <;> simp [isWriteEv, isNotifyEv] at h ⊢

theorem write_not_persist (ev : Event) (h : isWriteEv ev = true) : isPersistEv ev = false := by
  cases ev <;> simp [isWriteEv, isPersistEv] at h ⊢

theorem countP_zero_of_all_false {γ : Type} (p : γ → Bool) (l : List γ)
    (h : ∀ a ∈ l, p a = false) : l.countP p = 0 := by
  apply List.countP_eq_zero.mpr
  intro a ha
  simp [h a ha]

theorem persistLoop_countP_notify (cfg : Config) (pfx : String)
    (backend : StorageArea → String → Value → Option String) (s : Obj) :
    (persistLoop cfg pfx backend s).1.countP isNotifyEv = 0 :=
  countP_zero_of_all_false _ _ fun ev h =>
    write_not_notify ev (persistLoop_events_write cfg pfx backend s ev h)

theorem persistLoop_countP_persist (cfg : Config) (pfx : String)
    (backend : StorageArea → String → Value → Option String) (s : Obj) :
    (persistLoop cfg pfx backend s).1.countP isPersistEv = 0 :=
  countP_zero_of_all_false _ _ fun ev h =>
    write_not_persist ev (persistLoop_events_write cfg pfx backend s ev h)

/-- The events of one `notify` invocation: one `notifyCall` followed by
posts of the same change delta only. -/
theorem notifyEvents_shape (resolve : String → Option String)
    (insts : List (String × Obj)) (changes : Obj) (key : Option String) :
    ∃ posts : List Event,
      notifyEvents resolve insts changes key = Event.notifyCall changes key :: posts
      ∧ ∀ ev ∈ posts, ∃ t, ev = Event.post t changes := by
  unfold notifyEvents
  refine ⟨_, rfl, ?_⟩
  intro ev h
  have hmap : ∀ l : List (String × Obj),
      ev ∈ (l.map fun kv => Event.post (PostTarget.agentKey kv.1) changes) →
      ∃ t, ev = Event.post t changes := by
    intro l hl
    rcases List.mem_map.mp hl with ⟨kv, _, hev⟩
    exact ⟨PostTarget.agentKey kv.1, hev.symm⟩
  cases key with
  | none => exact hmap insts h
  | some k =>
    have h2 : ev ∈ (if (k == "") = true
        then insts.map fun kv => Event.post (PostTarget.agentKey kv.1) changes
        else match resolve k with
          | some l => [Event.post (PostTarget.loc l) changes]
          | none => insts.map fun kv => Event.post (PostTarget.agentKey kv.1) changes) := h
    by_cases hk : (k == "") = true
    · rw [if_pos hk] at h2
      exact hmap insts h2
    · rw [if_neg hk] at h2
      cases hr : resolve k with
      | some l =>
        rw [hr] at h2
        exact ⟨PostTarget.loc l, List.mem_singleton.mp h2⟩
      | none =>
        rw [hr] at h2
        exact hmap insts h2

theorem post_not_notify (t : PostTarget) (c : Obj) : isNotifyEv (Event.post t c) = false := rfl

theorem post_not_persist (t : PostTarget) (c : Obj) : isPersistEv (Event.post t c) = false := rfl

theorem notifyEvents_countP_notify (resolve : String → Option String)
    (insts : List (String × Obj)) (changes : Obj) (key : Option String) :
    (notifyEvents resolve insts changes key).countP isNotifyEv = 1 := by
  obtain ⟨posts, heq, hposts⟩ := notifyEvents_shape resolve insts changes key
  rw [heq, List.countP_cons]
  have h0 : posts.countP isNotifyEv = 0 :=
    countP_zero_of_all_false _ _ fun ev h => by
      obtain ⟨t, ht⟩ := hposts ev h
      rw [ht]
      rfl
  simp [h0, isNotifyEv]

theorem notifyEvents_countP_persist (resolve : String → Option String)
    (insts : List (String × Obj)) (changes : Obj) (key : Option String) :
    (notifyEvents resolve insts changes key).countP isPersistEv = 0 := by
  obtain ⟨posts, heq, hposts⟩ := notifyEvents_shape resolve insts changes key
  rw [heq, List.countP_cons]
  have h0 : posts.countP isPersistEv = 0 :=
    countP_zero_of_all_false _ _ fun ev h => by
      obtain ⟨t, ht⟩ := hposts ev h
      rw [ht]
      rfl
  simp [h0, isPersistEv]

theorem setInstancePhase_noop (cfg : Config) (resolve : String → Option String)
    (st : Store) (x : Obj) (key : Option String)
    (h : ∀ k, key = some k → k ≠ "" → (setSplit cfg x).1 ≠ [] →
      deepEqual (instCurrent cfg st k)
        (objSpread (instCurrent cfg st k) (setSplit cfg x).1) = true) :
    setInstancePhase cfg resolve st x key = (st, []) := by
  unfold setInstancePhase
  cases key with
  | none => rfl
  | some k =>
    show (if (!(k == "") && ((setSplit cfg x).1.length != 0)) = true then
        setInstanceState cfg resolve st k (setSplit cfg x).1 else (st, [])) = (st, [])
    by_cases hc : (!(k == "") && ((setSplit cfg x).1.length != 0)) = true
    · rw [if_pos hc]
      rw [Bool.and_eq_true] at hc
      obtain ⟨h1, h2⟩ := hc
      exact setInstanceState_noop cfg resolve st k (setSplit cfg x).1
        (h k rfl (by simpa using h1) ((length_bne_zero_iff _).mp h2))
    · rw [if_neg hc]

/-- C1 part (i) as a lemma: a `set` whose candidates deep-equal the
current state touches nothing and reports nothing. -/
theorem setOp_noop (cfg : Config) (pfx : String)
    (backend : StorageArea → String → Value → Option String)
    (resolve : String → Option String) (st : Store) (x : Obj) (key : Option String)
    (h : SetCandidatesUnchanged cfg st x key) :
    setOp cfg pfx backend resolve st x key = ⟨st, [], Except.ok (), []⟩ := by
  obtain ⟨hInst, hServ⟩ := h
  have hAfter := setInstancePhase_noop cfg resolve st x key hInst
  unfold setOp
  by_cases hw : ((setSplit cfg x).2.length != 0) = true
  · have hns := setServiceState_noop cfg pfx backend resolve st (setSplit cfg x).2
      (hServ ((length_bne_zero_iff _).mp hw))
    rw [if_pos hw, hAfter]
    simp [hns]
  · rw [if_neg hw, hAfter]

theorem setInstancePhase_serviceState (cfg : Config) (resolve : String → Option String)
    (st : Store) (x : Obj) (key : Option String) :
    (setInstancePhase cfg resolve st x key).1.serviceState = st.serviceState := by
  unfold setInstancePhase
  cases key with
  | none => rfl
  | some k =>
    show (if (!(k == "") && ((setSplit cfg x).1.length != 0)) = true then
        setInstanceState cfg resolve st k (setSplit cfg x).1
        else (st, [])).1.serviceState = st.serviceState
    by_cases hc : (!(k == "") && ((setSplit cfg x).1.length != 0)) = true
    · rw [if_pos hc]
      exact setInstanceState_serviceState cfg resolve st k (setSplit cfg x).1
    · rw [if_neg hc]

/-- The service state after `set`: unchanged with the no-change check
having passed, or the merged candidate. -/
theorem setOp_serviceState_precise (cfg : Config) (pfx : String)
    (backend : StorageArea → String → Value → Option String)
    (resolve : String → Option String) (st : Store) (x : Obj) (key : Option String) :
    ((setOp cfg pfx backend resolve st x key).store.serviceState = st.serviceState
      ∧ ((setSplit cfg x).2 ≠ [] →
        deepEqual st.serviceState (objSpread st.serviceState (setSplit cfg x).2) = true))
    ∨ (setOp cfg pfx backend resolve st x key).store.serviceState
        = objSpread st.serviceState (setSplit cfg x).2 := by
  unfold setOp
  by_cases hw : ((setSplit cfg x).2.length != 0) = true
  · rw [if_pos hw]
    have hsvc := setInstancePhase_serviceState cfg resolve st x key
    by_cases hde : deepEqual (setInstancePhase cfg resolve st x key).1.serviceState
        (objSpread (setInstancePhase cfg resolve st x key).1.serviceState (setSplit cfg x).2) = true
    · left
      constructor
      · have : setServiceState cfg pfx backend resolve
            (setInstancePhase cfg resolve st x key).1 (setSplit cfg x).2
            = ⟨(setInstancePhase cfg resolve st x key).1, [], Except.ok ()⟩ :=
          setServiceState_noop _ _ _ _ _ _ hde
        simp [this, hsvc]
      · intro _
        rw [hsvc] at hde
        exact hde
    · right
      have hred : setServiceState cfg pfx backend resolve
          (setInstancePhase cfg resolve st x key).1 (setSplit cfg x).2
          = (let st1 : Store := ⟨objSpread (setInstancePhase cfg resolve st x key).1.serviceState
              (setSplit cfg x).2, (setInstancePhase cfg resolve st x key).1.instances⟩
             let p := persist cfg pfx backend (setSplit cfg x).2
             match p.2 with
             | Except.error e => ⟨st1, p.1, Except.error e⟩
             | Except.ok _ => ⟨st1, p.1 ++ notifyEvents resolve st1.instances
                 (setSplit cfg x).2 none, Except.ok ()⟩) := by
        unfold setServiceState
        rw [if_neg hde]
      rw [hred, hsvc]
      cases hp : (persist cfg pfx backend (setSplit cfg x).2).2 <;> simp [hp]
  · rw [if_neg hw]
    left
    refine ⟨setInstancePhase_serviceState cfg resolve st x key, ?_⟩
    intro hne
    exact absurd ((length_bne_zero_iff _).mpr hne) hw

theorem setInstanceState_changed (cfg : Config) (resolve : String → Option String)
    (st : Store) (k : String) (s : Obj)
    (h : deepEqual (instCurrent cfg st k) (objSpread (instCurrent cfg st k) s) = false) :
    setInstanceState cfg resolve st k s
      = (⟨st.serviceState, alInsert st.instances k (objSpread (instCurrent cfg st k) s)⟩,
         notifyEvents resolve
           (alInsert st.instances k (objSpread (instCurrent cfg st k) s)) s (some k)) := by
  unfold setInstanceState
  rw [show (alGet st.instances k).getD (instanceDefault cfg) = instCurrent cfg st k from rfl]
  simp [h]

theorem setServiceState_changed (cfg : Config) (pfx : String)
    (backend : StorageArea → String → Value → Option String)
    (resolve : String → Option String) (st : Store) (s : Obj)
    (h : deepEqual st.serviceState (objSpread st.serviceState s) = false) :
    setServiceState cfg pfx backend resolve st s
      = match (persist cfg pfx backend s).2 with
        | Except.error e =>
          ⟨⟨objSpread st.serviceState s, st.instances⟩,
            (persist cfg pfx backend s).1, Except.error e⟩
        | Except.ok _ =>
          ⟨⟨objSpread st.serviceState s, st.instances⟩,
            (persist cfg pfx backend s).1 ++ notifyEvents resolve st.instances s none,
            Except.ok ()⟩ := by
  unfold setServiceState
  simp [h]

theorem setInstancePhase_precise (cfg : Config) (resolve : String → Option String)
    (st : Store) (x : Obj) (k : String)
    (hk : (k == "") = false) (hne : (setSplit cfg x).1 ≠ []) :
    (setInstancePhase cfg resolve st x (some k) = (st, [])
      ∧ deepEqual (instCurrent cfg st k)
          (objSpread (instCurrent cfg st k) (setSplit cfg x).1) = true)
    ∨ setInstancePhase cfg resolve st x (some k)
      = (⟨st.serviceState,
          alInsert st.instances k (objSpread (instCurrent cfg st k) (setSplit cfg x).1)⟩,
         notifyEvents resolve
           (alInsert st.instances k (objSpread (instCurrent cfg st k) (setSplit cfg x).1))
           (setSplit cfg x).1 (some k)) := by
  have hcond : (!(k == "") && ((setSplit cfg x).1.length != 0)) = true := by
    rw [Bool.and_eq_true]
    exact ⟨by simp [hk], (length_bne_zero_iff _).mpr hne⟩
  have hstep : setInstancePhase cfg resolve st x (some k)
      = setInstanceState cfg resolve st k (setSplit cfg x).1 := by
    show (if (!(k == "") && ((setSplit cfg x).1.length != 0)) = true then
        setInstanceState cfg resolve st k (setSplit cfg x).1 else (st, []))
      = setInstanceState cfg resolve st k (setSplit cfg x).1
    rw [if_pos hcond]
  by_cases hde : deepEqual (instCurrent cfg st k)
      (objSpread (instCurrent cfg st k) (setSplit cfg x).1) = true
  · left
    exact ⟨hstep.trans (setInstanceState_noop cfg resolve st k (setSplit cfg x).1 hde), hde⟩
  · right
    exact hstep.trans (setInstanceState_changed cfg resolve st k (setSplit cfg x).1
      (Bool.not_eq_true _ ▸ Bool.of_not_eq_true hde))

theorem setOp_instances_eq_phase (cfg : Config) (pfx : String)
    (backend : StorageArea → String → Value → Option String)
    (resolve : String → Option String) (st : Store) (x : Obj) (key : Option String) :
    (setOp cfg pfx backend resolve st x key).store.instances
      = (setInstancePhase cfg resolve st x key).1.instances := by
  unfold setOp
  by_cases hw : ((setSplit cfg x).2.length != 0) = true
  · rw [if_pos hw]
    exact setServiceState_instances cfg pfx backend resolve
      (setInstancePhase cfg resolve st x key).1 (setSplit cfg x).2
  · rw [if_neg hw]

/-- C1 part (ii) as a lemma: the second of two consecutive identical
`set` calls is always a complete no-op. -/
theorem setOp_second_noop (cfg : Config) (pfx : String)
    (backend : StorageArea → String → Value → Option String)
    (resolve : String → Option String) (st : Store) (x : Obj) (key : Option String) :
    setOp cfg pfx backend resolve (setOp cfg pfx backend resolve st x key).store x key
      = ⟨(setOp cfg pfx backend resolve st x key).store, [], Except.ok (), []⟩ := by
  apply setOp_noop
  constructor
  · intro k hkey hkne hne
    subst hkey
    have hks : (k == "") = false := by simp [hkne]
    rcases setInstancePhase_precise cfg resolve st x k hks hne with ⟨hphase, hde⟩ | hphase
    · have hcur : instCurrent cfg (setOp cfg pfx backend resolve st x (some k)).store k
          = instCurrent cfg st k := by
        unfold instCurrent
        rw [setOp_instances_eq_phase, hphase]
      rw [hcur]
      exact hde
    · have hcur : instCurrent cfg (setOp cfg pfx backend resolve st x (some k)).store k
          = objSpread (instCurrent cfg st k) (setSplit cfg x).1 := by
        unfold instCurrent
        rw [setOp_instances_eq_phase, hphase]
        simp [alGet_alInsert]
        rfl
      rw [hcur]
      exact deepEqual_objSpread_self _ _
  · intro hne
    rcases setOp_serviceState_precise cfg pfx backend resolve st x key with ⟨hsame, hde⟩ | hch
    · rw [hsame]
      exact hde hne
    · rw [hch]
      exact deepEqual_objSpread_self _ _

/-- C1 part (iii) as a lemma: a `set` that runs only the service branch
and changes the state, with persistence succeeding, invokes `notify`
exactly once and `persist` exactly once. -/
theorem setOp_changed_counts (cfg : Config) (pfx : String)
    (backend : StorageArea → String → Value → Option String)
    (resolve : String → Option String) (st : Store) (x : Obj) (key : Option String)
    (hNoInst : key = none ∨ (setSplit cfg x).1 = [])
    (hw : (setSplit cfg x).2 ≠ [])
    (hch : deepEqual st.serviceState (objSpread st.serviceState (setSplit cfg x).2) = false)
    (hok : (persistLoop cfg pfx backend (setSplit cfg x).2).2 = Except.ok ()) :
    (setOp cfg pfx backend resolve st x key).events.countP isNotifyEv = 1
    ∧ (setOp cfg pfx backend resolve st x key).events.countP isPersistEv = 1 := by
  have hphase : setInstancePhase cfg resolve st x key = (st, []) := by
    rcases hNoInst with h | h
    · rw [h]; rfl
    · unfold setInstancePhase
      cases key with
      | none => rfl
      | some k =>
        show (if (!(k == "") && ((setSplit cfg x).1.length != 0)) = true then
            setInstanceState cfg resolve st k (setSplit cfg x).1 else (st, [])) = (st, [])
        rw [if_neg (by simp [h])]
  have hpok : (persist cfg pfx backend (setSplit cfg x).2).2 = Except.ok () := by
    simpa [persist] using hok
  unfold setOp
  rw [if_pos ((length_bne_zero_iff _).mpr hw), hphase]
  rw [setServiceState_changed cfg pfx backend resolve st (setSplit cfg x).2 hch, hpok]
  constructor
  · simp [persist, List.countP_append, List.countP_cons,
      persistLoop_countP_notify, notifyEvents_countP_notify, isNotifyEv]
  · simp [persist, List.countP_append, List.countP_cons,
      persistLoop_countP_persist, notifyEvents_countP_persist, isPersistEv]

/-! ### Claim C1 -/

/-- C1, counterexample to the claim as stated: two consecutive `set(x)`
calls with identical `x` do NOT always trigger exactly one notification
and one persistence write in total — when `x` already deep-equals the
current state both calls are no-ops, so zero notifications and zero
persist invocations occur. -/
theorem set_idempotence_counterexample :
    ((setOp exCfg "crann_" okBackend noResolve exStore [("counter", Value.vNat 0)] none).events
      ++ (setOp exCfg "crann_" okBackend noResolve
          (setOp exCfg "crann_" okBackend noResolve exStore
            [("counter", Value.vNat 0)] none).store
          [("counter", Value.vNat 0)] none).events).countP isNotifyEv = 0
    ∧ ((setOp exCfg "crann_" okBackend noResolve exStore [("counter", Value.vNat 0)] none).events
      ++ (setOp exCfg "crann_" okBackend noResolve
          (setOp exCfg "crann_" okBackend noResolve exStore
            [("counter", Value.vNat 0)] none).store
          [("counter", Value.vNat 0)] none).events).countP isPersistEv = 0
    ∧ (0 : Nat) ≠ 1 := by
  refine ⟨by decide, by decide, by decide⟩

/-- C1 (amended): (i) a `set` whose merged candidates deep-equal the
current state is a complete no-op — no state change, no persistence
write, no notification, no error; (ii) the second of two consecutive
identical `set(x)` calls is always such a no-op; (iii) hence when the
first call runs only the service branch, actually changes the service
state and persistence succeeds, the two calls together invoke `notify`
exactly once and `persist` exactly once. -/
theorem set_idempotence_amended :
    (∀ cfg pfx backend resolve st x key,
      SetCandidatesUnchanged cfg st x key →
      setOp cfg pfx backend resolve st x key = ⟨st, [], Except.ok (), []⟩)
    ∧ (∀ cfg pfx backend resolve st x key,
      setOp cfg pfx backend resolve (setOp cfg pfx backend resolve st x key).store x key
        = ⟨(setOp cfg pfx backend resolve st x key).store, [], Except.ok (), []⟩)
    ∧ (∀ cfg pfx backend resolve st x key,
      key = none ∨ (setSplit cfg x).1 = [] →
      (setSplit cfg x).2 ≠ [] →
      deepEqual st.serviceState (objSpread st.serviceState (setSplit cfg x).2) = false →
      (persistLoop cfg pfx backend (setSplit cfg x).2).2 = Except.ok () →
      ((setOp cfg pfx backend resolve st x key).events
        ++ (setOp cfg pfx backend resolve
            (setOp cfg pfx backend resolve st x key).store x key).events).countP isNotifyEv = 1
      ∧ ((setOp cfg pfx backend resolve st x key).events
        ++ (setOp cfg pfx backend resolve
            (setOp cfg pfx backend resolve st x key).store x key).events).countP isPersistEv = 1) := by
  refine ⟨setOp_noop, setOp_second_noop, ?_⟩
  intro cfg pfx backend resolve st x key hNoInst hw hch hok
  have h2 := setOp_second_noop cfg pfx backend resolve st x key
  rw [h2]
  have hc := setOp_changed_counts cfg pfx backend resolve st x key hNoInst hw hch hok
  simpa using hc

/-- C1 witness: the amended theorem applied at concrete inputs — a
no-op `set` on the fixture store, and a changing `set({counter: 3})`
whose two consecutive runs notify once and persist once in total. -/
theorem set_idempotence_amended_witness :
    setOp exCfg "crann_" okBackend noResolve exStore [("counter", Value.vNat 0)] none
      = ⟨exStore, [], Except.ok (), []⟩
    ∧ ((setOp exCfg "crann_" okBackend noResolve exStore [("counter", Value.vNat 3)] none).events
      ++ (setOp exCfg "crann_" okBackend noResolve
          (setOp exCfg "crann_" okBackend noResolve exStore
            [("counter", Value.vNat 3)] none).store
          [("counter", Value.vNat 3)] none).events).countP isNotifyEv = 1 := by
  constructor
  · exact set_idempotence_amended.1 exCfg "crann_" okBackend noResolve exStore
      [("counter", Value.vNat 0)] none
      (by
        constructor
        · intro k hk h1 h2
          exact Option.noConfusion hk
        · intro _
          decide)
  · exact (set_idempotence_amended.2.2 exCfg "crann_" okBackend noResolve exStore
      [("counter", Value.vNat 3)] none (Or.inl rfl) (by decide) (by decide) (by decide)).1

/-- A field declared `partition: "instance"` never reaches the worker
bucket of the `set` split. -/
theorem worker_alGet_none (cfg : Config) (x : Obj) (f : String) (it : ConfigItem)
    (hf : alGet cfg f = some (CfgEntry.item it)) (hinst : isInstanceItem it = true) :
    alGet (setSplit cfg x).2 f = none := by
  induction x with
  | nil => rfl
  | cons kv rest ih =>
    obtain ⟨k, v⟩ := kv
    by_cases hk : k = f
    · subst hk
      simp only [setSplit, hf, hinst, if_true]
      exact ih
    · simp only [setSplit]
      cases halg : alGet cfg k with
      | none => exact ih
      | some e =>
        cases e with
        | action => exact ih
        | item it2 =>
          by_cases hi2 : isInstanceItem it2 = true
          · simp only [hi2, if_true]
            exact ih
          · simp only [hi2, if_false, Bool.false_eq_true]
            by_cases hs2 : isServiceItem it2 = true
            · simp only [hs2, if_true]
              show alGet ((k, v) :: (setSplit cfg rest).2) f = none
              simp only [alGet, hk, if_false]
              exact ih
            · simp only [hs2, if_false, Bool.false_eq_true]
              exact ih

/-- Every notification or post emitted by `setServiceState` carries the
worker delta itself as its changes payload. -/
theorem setServiceState_changes_events (cfg : Config) (pfx : String)
    (backend : StorageArea → String → Value → Option String)
    (resolve : String → Option String) (st : Store) (s : Obj) :
    ∀ ev ∈ (setServiceState cfg pfx backend resolve st s).events,
      (∀ c k2, ev = Event.notifyCall c k2 → c = s)
      ∧ (∀ t c, ev = Event.post t c → c = s) := by
  intro ev hev
  by_cases hde : deepEqual st.serviceState (objSpread st.serviceState s) = true
  · rw [setServiceState_noop cfg pfx backend resolve st s hde] at hev
    cases hev
  · rw [setServiceState_changed cfg pfx backend resolve st s
      (Bool.not_eq_true _ ▸ Bool.of_not_eq_true hde)] at hev
    cases hp : (persist cfg pfx backend s).2 with
    | error e =>
      rw [hp] at hev
      have hw : ∀ ev2 ∈ (persist cfg pfx backend s).1,
          (∀ c k2, ev2 = Event.notifyCall c k2 → c = s)
          ∧ (∀ t c, ev2 = Event.post t c → c = s) := by
        intro ev2 hev2
        rcases List.mem_cons.mp hev2 with h1 | h1
        · constructor
          · intro c k2 hc
            rw [h1] at hc
            cases hc
          · intro t c hc
            rw [h1] at hc
            cases hc
        · have := persistLoop_events_write cfg pfx backend s ev2 h1
          constructor
          · intro c k2 hc
            rw [hc] at this
            cases this
          · intro t c hc
            rw [hc] at this
            cases this
      exact hw ev hev
    | ok u =>
      rw [hp] at hev
      rcases List.mem_append.mp hev with h1 | h1
      · rcases List.mem_cons.mp h1 with h2 | h2
        · constructor
          · intro c k2 hc
            rw [h2] at hc
            cases hc
          · intro t c hc
            rw [h2] at hc
            cases hc
        · have := persistLoop_events_write cfg pfx backend s ev h2
          constructor
          · intro c k2 hc
            rw [hc] at this
            cases this
          · intro t c hc
            rw [hc] at this
            cases this
      · obtain ⟨posts, heq, hposts⟩ := notifyEvents_shape resolve st.instances s none
        rw [heq] at h1
        rcases List.mem_cons.mp h1 with h2 | h2
        · constructor
          · intro c k2 hc
            rw [h2] at hc
            exact (Event.notifyCall.inj hc).1.symm
          · intro t c hc
            rw [h2] at hc
            cases hc
        · obtain ⟨t, ht⟩ := hposts ev h2
          constructor
          · intro c k2 hc
            rw [ht] at hc
            cases hc
          · intro t2 c hc
            rw [ht] at hc
            exact (Event.post.inj hc).2.symm

/-! ### Claim C2 -/

/-- The one-field spread always yields that field's value. -/
theorem alGet_objSpread_single (a : Obj) (f : String) (v : Value) :
    alGet (objSpread a [(f, v)]) f = some v := by
  rw [alGet_objSpread]
  simp [objLast, alGet]

/-- C2: for a field declared `partition: "instance"`, `set({field: v})`
without an instance key is a complete no-op — it never mutates the
canonical service state — and `get()` with no key never reflects `v`
(the field stays absent from the canonical state); `get(key)` after
`set({field: v}, key)` for a connected instance key does reflect `v`. -/
theorem instance_partition_separation
    (cfg : Config) (pfx : String)
    (backend : StorageArea → String → Value → Option String)
    (resolve : String → Option String) (st : Store)
    (f : String) (v : Value) (it : ConfigItem)
    (hf : alGet cfg f = some (CfgEntry.item it)) (hinst : isInstanceItem it = true) :
    setOp cfg pfx backend resolve st [(f, v)] none = ⟨st, [], Except.ok (), []⟩
    ∧ (alGet st.serviceState f = none →
        alGet (getOp (setOp cfg pfx backend resolve st [(f, v)] none).store none) f = none)
    ∧ (∀ k cur, k ≠ "" → alGet st.instances k = some cur → NodupKeys cur →
        alGet (getOp (setOp cfg pfx backend resolve st [(f, v)] (some k)).store (some k)) f
          = some v) := by
  have hsplit : setSplit cfg [(f, v)] = ([(f, v)], []) := by
    simp [setSplit, hf, hinst]
  have ha : setOp cfg pfx backend resolve st [(f, v)] none = ⟨st, [], Except.ok (), []⟩ := by
    unfold setOp
    rw [hsplit]
    simp [setInstancePhase]
  refine ⟨ha, ?_, ?_⟩
  · intro habsent
    rw [ha]
    exact habsent
  · intro k cur hkne hcur hnodup
    have hks : (k == "") = false := by simp [hkne]
    have hicur : instCurrent cfg st k = cur := by
      unfold instCurrent
      rw [hcur]
      rfl
    have hstore : (setOp cfg pfx backend resolve st [(f, v)] (some k)).store
        = (setInstancePhase cfg resolve st [(f, v)] (some k)).1 := by
      unfold setOp
      rw [hsplit]
      simp
    rcases setInstancePhase_precise cfg resolve st [(f, v)] k hks
        (by rw [hsplit]; exact List.cons_ne_nil _ _) with ⟨hphase, hde⟩ | hphase
    · rw [hsplit] at hde
      dsimp only at hde
      have hvf : alGet cur f = some v := by
        have h2 := (deepEqual_iff _ _).mp hde f
        rw [hicur] at h2
        rw [h2, alGet_objSpread_single]
      rw [hstore, hphase]
      show alGet (if (k == "") = true then st.serviceState
        else objSpread st.serviceState ((alGet st.instances k).getD [])) f = some v
      rw [if_neg (by simp [hks]), hcur]
      show alGet (objSpread st.serviceState cur) f = some v
      rw [alGet_objSpread, objLast_eq_alGet cur f hnodup, hvf]
      rfl
    · rw [hsplit] at hphase
      dsimp only at hphase
      rw [hstore, hphase]
      show alGet (if (k == "") = true then st.serviceState
        else objSpread st.serviceState
          ((alGet (alInsert st.instances k (objSpread (instCurrent cfg st k) [(f, v)])) k).getD []))
        f = some v
      rw [if_neg (by simp [hks])]
      have hget : alGet (alInsert st.instances k (objSpread (instCurrent cfg st k) [(f, v)])) k
          = some (objSpread (instCurrent cfg st k) [(f, v)]) := by
        rw [alGet_alInsert]
        simp
      rw [hget, Option.getD_some]
      have hnd2 : NodupKeys (objSpread (instCurrent cfg st k) [(f, v)]) := by
        rw [hicur]
        exact nodupKeys_objSpread cur [(f, v)] hnodup
      rw [alGet_objSpread, objLast_eq_alGet _ f hnd2, hicur, alGet_objSpread_single]
      rfl

/-- C2 witness: the theorem applied to the fixture config and store,
with the per-instance field `name`, value `"x"` and connected key `"A"`. -/
theorem instance_partition_separation_witness :
    setOp exCfg "crann_" okBackend noResolve exStore [("name", Value.vStr "x")] none
      = ⟨exStore, [], Except.ok (), []⟩
    ∧ alGet (getOp (setOp exCfg "crann_" okBackend noResolve exStore
        [("name", Value.vStr "x")] none).store none) "name" = none
    ∧ alGet (getOp (setOp exCfg "crann_" okBackend noResolve exStore
        [("name", Value.vStr "x")] (some "A")).store (some "A")) "name"
      = some (Value.vStr "x") := by
  have h := instance_partition_separation exCfg "crann_" okBackend noResolve exStore
    "name" (Value.vStr "x") ⟨Value.vStr "", some Partition.instanceP, none⟩
    (by decide) (by decide)
  exact ⟨h.1, h.2.1 (by decide),
    h.2.2 "A" [("name", Value.vStr "")] (by decide) (by decide) (by decide)⟩

/-! ### Claim C3 -/

/-- C3: a per-instance field `f` contained in a `set` payload invoked
without an instance key is dropped entirely — the instance map is
untouched, the canonical state is unchanged at `f`, and no notification
or post carries `f` in its change delta. -/
theorem instance_field_dropped_without_key
    (cfg : Config) (pfx : String)
    (backend : StorageArea → String → Value → Option String)
    (resolve : String → Option String) (st : Store) (x : Obj)
    (f : String) (it : ConfigItem)
    (hf : alGet cfg f = some (CfgEntry.item it)) (hinst : isInstanceItem it = true)
    (_hmem : f ∈ alKeys x) :
    (setOp cfg pfx backend resolve st x none).store.instances = st.instances
    ∧ alGet (setOp cfg pfx backend resolve st x none).store.serviceState f
        = alGet st.serviceState f
    ∧ (∀ c k2, Event.notifyCall c k2 ∈ (setOp cfg pfx backend resolve st x none).events →
        alGet c f = none)
    ∧ (∀ t c, Event.post t c ∈ (setOp cfg pfx backend resolve st x none).events →
        alGet c f = none) := by
  have hworker : alGet (setSplit cfg x).2 f = none := worker_alGet_none cfg x f it hf hinst
  have hphase : setInstancePhase cfg resolve st x none = (st, []) := rfl
  have hinsts : (setOp cfg pfx backend resolve st x none).store.instances = st.instances := by
    rw [setOp_instances_eq_phase, hphase]
  have hevents : ∀ ev ∈ (setOp cfg pfx backend resolve st x none).events,
      (∀ c k2, ev = Event.notifyCall c k2 → c = (setSplit cfg x).2)
      ∧ (∀ t c, ev = Event.post t c → c = (setSplit cfg x).2) := by
    intro ev hev
    unfold setOp at hev
    by_cases hw : ((setSplit cfg x).2.length != 0) = true
    · rw [if_pos hw, hphase] at hev
      exact setServiceState_changes_events cfg pfx backend resolve st (setSplit cfg x).2 ev
        (by simpa using hev)
    · rw [if_neg hw, hphase] at hev
      cases hev
  refine ⟨hinsts, ?_, ?_, ?_⟩
  · rcases setOp_serviceState_precise cfg pfx backend resolve st x none with ⟨hsame, _⟩ | hch
    · rw [hsame]
    · rw [hch, alGet_objSpread,
        (objLast_eq_none_iff _ _).mpr ((alGet_eq_none_iff _ _).mp hworker)]
      rfl
  · intro c k2 hev
    have := (hevents _ hev).1 c k2 rfl
    rw [this]
    exact hworker
  · intro t c hev
    have := (hevents _ hev).2 t c rfl
    rw [this]
    exact hworker

/-- C3 witness: a payload carrying both the per-instance `name` and the
shared `counter`, set without a key: the instance map survives, `name`
stays absent from the canonical state, and the emitted notification
delta omits `name`. -/
theorem instance_field_dropped_without_key_witness :
    (setOp exCfg "crann_" okBackend noResolve exStore
      [("name", Value.vStr "z"), ("counter", Value.vNat 9)] none).store.instances
      = exStore.instances
    ∧ alGet (setOp exCfg "crann_" okBackend noResolve exStore
        [("name", Value.vStr "z"), ("counter", Value.vNat 9)] none).store.serviceState "name"
      = alGet exStore.serviceState "name"
    ∧ (∀ c k2, Event.notifyCall c k2 ∈ (setOp exCfg "crann_" okBackend noResolve exStore
        [("name", Value.vStr "z"), ("counter", Value.vNat 9)] none).events →
        alGet c "name" = none) := by
  have h := instance_field_dropped_without_key exCfg "crann_" okBackend noResolve exStore
    [("name", Value.vStr "z"), ("counter", Value.vNat 9)] "name"
    ⟨Value.vStr "", some Partition.instanceP, none⟩ (by decide) (by decide) (by decide)
  exact ⟨h.1, h.2.1, h.2.2.1⟩

/-! ### Claim C9 -/

/-- C9: `set(update, key)` with a key that is not registered in the
instance map does not fail and is not a no-op — when the per-instance
part of the update differs from the instance defaults, a brand-new
entry holding the defaults overlaid with the update is inserted for
that key, a notification for the key is emitted, and the promise
resolves. -/
theorem set_unregistered_key_creates_entry
    (cfg : Config) (pfx : String)
    (backend : StorageArea → String → Value → Option String)
    (resolve : String → Option String) (st : Store) (x : Obj) (k : String)
    (hk : k ≠ "") (hnew : alGet st.instances k = none)
    (hne : (setSplit cfg x).1 ≠ [])
    (hch : deepEqual (instanceDefault cfg)
      (objSpread (instanceDefault cfg) (setSplit cfg x).1) = false) :
    alGet (setOp cfg pfx backend resolve st x (some k)).store.instances k
      = some (objSpread (instanceDefault cfg) (setSplit cfg x).1)
    ∧ Event.notifyCall (setSplit cfg x).1 (some k)
        ∈ (setOp cfg pfx backend resolve st x (some k)).events
    ∧ (setOp cfg pfx backend resolve st x (some k)).promise = Except.ok () := by
  have hks : (k == "") = false := by simp [hk]
  have hicur : instCurrent cfg st k = instanceDefault cfg := by
    unfold instCurrent
    rw [hnew]
    rfl
  rcases setInstancePhase_precise cfg resolve st x k hks hne with ⟨_, hde⟩ | hphase
  · rw [hicur] at hde
    rw [hde] at hch
    cases hch
  · rw [hicur] at hphase
    refine ⟨?_, ?_, ?_⟩
    · rw [setOp_instances_eq_phase, hphase]
      show alGet (alInsert st.instances k
        (objSpread (instanceDefault cfg) (setSplit cfg x).1)) k = _
      rw [alGet_alInsert]
      simp
    · have hhead : Event.notifyCall (setSplit cfg x).1 (some k)
          ∈ (setInstancePhase cfg resolve st x (some k)).2 := by
        rw [hphase]
        obtain ⟨posts, heq, _⟩ := notifyEvents_shape resolve
          (alInsert st.instances k (objSpread (instanceDefault cfg) (setSplit cfg x).1))
          (setSplit cfg x).1 (some k)
        show Event.notifyCall (setSplit cfg x).1 (some k) ∈ notifyEvents resolve _ _ _
        rw [heq]
        exact List.mem_cons_self _ _
      unfold setOp
      by_cases hw : ((setSplit cfg x).2.length != 0) = true
      · rw [if_pos hw]
        exact List.mem_append_left _ hhead
      · rw [if_neg hw]
        exact hhead
    · unfold setOp
      by_cases hw : ((setSplit cfg x).2.length != 0) = true
      · rw [if_pos hw]
      · rw [if_neg hw]

/-- C9 witness: the theorem at the fixture store with never-connected
key `"B"` and a per-instance update differing from the defaults. -/
theorem set_unregistered_key_creates_entry_witness :
    alGet (setOp exCfg "crann_" okBackend noResolve exStore
        [("name", Value.vStr "y")] (some "B")).store.instances "B"
      = some (objSpread (instanceDefault exCfg) (setSplit exCfg [("name", Value.vStr "y")]).1)
    ∧ (setOp exCfg "crann_" okBackend noResolve exStore
        [("name", Value.vStr "y")] (some "B")).promise = Except.ok () := by
  have h := set_unregistered_key_creates_entry exCfg "crann_" okBackend noResolve exStore
    [("name", Value.vStr "y")] "B" (by decide) (by decide) (by decide) (by decide)
  exact ⟨h.1, h.2.2⟩

/-! ### Claim C10 -/

/-- C10: when `notify` is invoked with an instance key whose agent
location cannot be resolved, the delta is neither delivered to a single
location nor dropped — it is posted to every registered instance key. -/
theorem notify_unresolved_key_broadcasts
    (resolve : String → Option String) (insts : List (String × Obj))
    (changes : Obj) (k : String)
    (hk : k ≠ "") (hres : resolve k = none) :
    notifyEvents resolve insts changes (some k)
      = Event.notifyCall changes (some k)
        :: insts.map (fun kv => Event.post (PostTarget.agentKey kv.1) changes)
    ∧ (∀ kv ∈ insts, Event.post (PostTarget.agentKey kv.1) changes
        ∈ notifyEvents resolve insts changes (some k))
    ∧ (∀ l, Event.post (PostTarget.loc l) changes
        ∉ notifyEvents resolve insts changes (some k)) := by
  have hks : ¬ (k == "") = true := by simp [hk]
  have heq : notifyEvents resolve insts changes (some k)
      = Event.notifyCall changes (some k)
        :: insts.map (fun kv => Event.post (PostTarget.agentKey kv.1) changes) := by
    show Event.notifyCall changes (some k)
        :: (if (k == "") = true
          then insts.map fun kv => Event.post (PostTarget.agentKey kv.1) changes
          else match resolve k with
            | some l => [Event.post (PostTarget.loc l) changes]
            | none => insts.map fun kv => Event.post (PostTarget.agentKey kv.1) changes) = _
    rw [if_neg hks, hres]
  refine ⟨heq, ?_, ?_⟩
  · intro kv hkv
    rw [heq]
    exact List.mem_cons_of_mem _ (List.mem_map_of_mem _ hkv)
  · intro l hmem
    rw [heq] at hmem
    rcases List.mem_cons.mp hmem with h1 | h1
    · cases h1
    · rcases List.mem_map.mp h1 with ⟨kv, _, hev⟩
      cases hev

/-- C10 witness: the theorem at a registry resolving nothing, two
registered instances and an unresolvable key `"B"`. -/
theorem notify_unresolved_key_broadcasts_witness :
    notifyEvents noResolve [("A", []), ("C", [])] [("counter", Value.vNat 1)] (some "B")
      = Event.notifyCall [("counter", Value.vNat 1)] (some "B")
        :: [Event.post (PostTarget.agentKey "A") [("counter", Value.vNat 1)],
            Event.post (PostTarget.agentKey "C") [("counter", Value.vNat 1)]]
    ∧ Event.post (PostTarget.agentKey "A") [("counter", Value.vNat 1)]
        ∈ notifyEvents noResolve [("A", []), ("C", [])] [("counter", Value.vNat 1)] (some "B") := by
  have h := notify_unresolved_key_broadcasts noResolve [("A", []), ("C", [])]
    [("counter", Value.vNat 1)] "B" (by decide) (by decide)
  exact ⟨h.1, h.2.1 ("A", []) (by decide)⟩

/-! ### Claim C4 -/

/-- A message that is no response for `id` leaves the registration
status of `id` unchanged and produces no event for `id`. -/
theorem processMessage_other (st : EndpointState) (m : InMsg) (id : Nat)
    (hm : isResponseFor m id = false) :
    alGet (processMessage st m).1.callbacks id = alGet st.callbacks id
    ∧ (processMessage st m).2.countP (fun e => e.1 == id) = 0 := by
  cases m with
  | result i v =>
    have hne : i ≠ id := by simpa [isResponseFor] using hm
    cases hc : alGet st.callbacks i with
    | none => simp [processMessage, hc]
    | some tag =>
      simp only [processMessage, hc]
      constructor
      · exact alGet_alErase_ne st.callbacks i id (fun h => hne h.symm)
      · simp [hne]
  | error i msg =>
    have hne : i ≠ id := by simpa [isResponseFor] using hm
    cases hc : alGet st.callbacks i with
    | none => simp [processMessage, hc]
    | some tag =>
      simp only [processMessage, hc]
      constructor
      · exact alGet_alErase_ne st.callbacks i id (fun h => hne h.symm)
      · simp [hne]
  | release rid => simp [processMessage]

/-- Once `id` is unregistered it stays unregistered, and no later
message invokes a callback for it. -/
theorem processAll_absent (st : EndpointState) (msgs : List InMsg) (id : Nat)
    (h : alGet st.callbacks id = none) :
    invocationsFor st msgs id = 0
    ∧ alGet (processAll st msgs).1.callbacks id = none := by
  induction msgs generalizing st with
  | nil => exact ⟨rfl, h⟩
  | cons m rest ih =>
    have hstep : alGet (processMessage st m).1.callbacks id = none
        ∧ (processMessage st m).2.countP (fun e => e.1 == id) = 0 := by
      by_cases hr : isResponseFor m id = true
      · cases m with
        | result i v =>
          have hi : i = id := by simpa [isResponseFor] using hr
          subst hi
          simp [processMessage, h]
        | error i msg =>
          have hi : i = id := by simpa [isResponseFor] using hr
          subst hi
          simp [processMessage, h]
        | release rid => simp [isResponseFor] at hr
      · have := processMessage_other st m id (Bool.not_eq_true _ ▸ Bool.of_not_eq_true hr)
        exact ⟨this.1.trans h, this.2⟩
    have ihr := ih (processMessage st m).1 hstep.1
    constructor
    · show ((processMessage st m).2 ++ (processAll (processMessage st m).1 rest).2).countP
        (fun e => e.1 == id) = 0
      rw [List.countP_append, hstep.2]
      have h0 : (processAll (processMessage st m).1 rest).2.countP
          (fun e => e.1 == id) = 0 := ihr.1
      rw [h0]
    · exact ihr.2

/-- C4: a pending call registered under a correlation id is settled
exactly once by any message sequence containing a matching Result or
Error — the entry is removed on the first match, and any later
Result/Error with the same id invokes no callback and leaves the
endpoint state unchanged. -/
theorem pending_call_resolved_once (st : EndpointState) (id tag : Nat) (msgs : List InMsg)
    (hreg : alGet st.callbacks id = some tag)
    (hresp : ∃ m ∈ msgs, isResponseFor m id = true) :
    invocationsFor st msgs id = 1
    ∧ alGet (processAll st msgs).1.callbacks id = none
    ∧ (∀ st2 m, alGet st2.callbacks id = none → isResponseFor m id = true →
        processMessage st2 m = (st2, [])) := by
  have hlate : ∀ st2 m, alGet st2.callbacks id = none → isResponseFor m id = true →
      processMessage st2 m = (st2, []) := by
    intro st2 m h2 hm
    cases m with
    | result i v =>
      have hi : i = id := by simpa [isResponseFor] using hm
      subst hi
      simp [processMessage, h2]
    | error i msg =>
      have hi : i = id := by simpa [isResponseFor] using hm
      subst hi
      simp [processMessage, h2]
    | release rid => simp [isResponseFor] at hm
  induction msgs generalizing st with
  | nil =>
    obtain ⟨m, hm, _⟩ := hresp
    cases hm
  | cons m rest ih =>
    by_cases hr : isResponseFor m id = true
    · have hstep : alGet (processMessage st m).1.callbacks id = none
          ∧ (processMessage st m).2.countP (fun e => e.1 == id) = 1 := by
        cases m with
        | result i v =>
          have hi : i = id := by simpa [isResponseFor] using hr
          subst hi
          simp [processMessage, hreg, alGet_alErase_self]
        | error i msg =>
          have hi : i = id := by simpa [isResponseFor] using hr
          subst hi
          simp [processMessage, hreg, alGet_alErase_self]
        | release rid => simp [isResponseFor] at hr
      have habs := processAll_absent (processMessage st m).1 rest id hstep.1
      refine ⟨?_, habs.2, hlate⟩
      show ((processMessage st m).2 ++ (processAll (processMessage st m).1 rest).2).countP
        (fun e => e.1 == id) = 1
      rw [List.countP_append, hstep.2]
      have h0 : (processAll (processMessage st m).1 rest).2.countP
          (fun e => e.1 == id) = 0 := habs.1
      rw [h0]
    · have hother := processMessage_other st m id (Bool.not_eq_true _ ▸ Bool.of_not_eq_true hr)
      have hreg2 : alGet (processMessage st m).1.callbacks id = some tag :=
        hother.1.trans hreg
      have hresp2 : ∃ m2 ∈ rest, isResponseFor m2 id = true := by
        obtain ⟨m2, hm2, hr2⟩ := hresp
        rcases List.mem_cons.mp hm2 with h1 | h1
        · exact absurd (h1 ▸ hr2) hr
        · exact ⟨m2, h1, hr2⟩
      have ihr := ih (processMessage st m).1 hreg2 hresp2
      refine ⟨?_, ihr.2.1, hlate⟩
      show ((processMessage st m).2 ++ (processAll (processMessage st m).1 rest).2).countP
        (fun e => e.1 == id) = 1
      rw [List.countP_append, hother.2]
      have h1 : (processAll (processMessage st m).1 rest).2.countP
          (fun e => e.1 == id) = 1 := ihr.1
      rw [h1]

/-- C4 witness: a registered call with id 5 receiving a Result followed
by a duplicate Result and a late Error: one invocation in total, the
entry removed, and the duplicate leaving everything untouched. -/
theorem pending_call_resolved_once_witness :
    invocationsFor ⟨[(5, 100)], []⟩
      [InMsg.result 5 (Value.vNat 1), InMsg.result 5 (Value.vNat 2), InMsg.error 5 "late"] 5 = 1
    ∧ alGet (processAll ⟨[(5, 100)], []⟩
        [InMsg.result 5 (Value.vNat 1), InMsg.result 5 (Value.vNat 2),
         InMsg.error 5 "late"]).1.callbacks 5 = none
    ∧ processMessage ⟨[], []⟩ (InMsg.result 5 (Value.vNat 2)) = (⟨[], []⟩, []) := by
  have h := pending_call_resolved_once ⟨[(5, 100)], []⟩ 5 100
    [InMsg.result 5 (Value.vNat 1), InMsg.result 5 (Value.vNat 2), InMsg.error 5 "late"]
    (by decide) ⟨InMsg.result 5 (Value.vNat 1), by decide, by decide⟩
  exact ⟨h.1, h.2.1, h.2.2 ⟨[], []⟩ (InMsg.result 5 (Value.vNat 2)) (by decide) (by decide)⟩

/-! ### Claim C7 -/

/-- C7, counterexample to the claim as stated: for a Call without a
caller address the endpoint replies with the message
`"No target provided for action call"`, not `"No target provided"`
(the handler is indeed never invoked). -/
theorem no_target_message_counterexample :
    (handleCall exActions 7 "noop" [] none).reply
      = OutMsg.errorMsg 7 "noop" "No target provided for action call" none
    ∧ "No target provided for action call" ≠ "No target provided"
    ∧ (handleCall exActions 7 "noop" [] none).handlerRan = false := by
  refine ⟨by decide, by decide, by decide⟩

/-- C7 (amended): for every incoming Call lacking a caller address the
action handler is never invoked; when the action exists and its
`validate` hook (which runs before the address check) does not throw,
the endpoint replies with an Error carrying the fixed message
`"No target provided for action call"`, echoing the original
correlation id. -/
theorem no_target_reply_amended
    (actions : List (String × ActionSpec)) (corrId : Nat) (callId : String)
    (args : List Value) (act : ActionSpec)
    (hact : alGet actions callId = some act)
    (hval : ∀ vf, act.validate = some vf → vf args = none) :
    handleCall actions corrId callId args none
      = ⟨OutMsg.errorMsg corrId callId "No target provided for action call" none,
         act.validate.isSome, false⟩
    ∧ (∀ (actions2 : List (String × ActionSpec)) (corrId2 : Nat) (callId2 : String)
        (args2 : List Value),
        (handleCall actions2 corrId2 callId2 args2 none).handlerRan = false) := by
  constructor
  · obtain ⟨val, hand⟩ := act
    unfold handleCall
    simp only [hact]
    cases val with
    | none => rfl
    | some vf =>
      have hn : vf args = none := hval vf rfl
      simp only [hn]
      rfl
  · intro actions2 corrId2 callId2 args2
    unfold handleCall
    cases h2 : alGet actions2 callId2 with
    | none => rfl
    | some act2 =>
      obtain ⟨val, hand⟩ := act2
      simp only
      cases val with
      | none => rfl
      | some vf =>
        cases hr : vf args2 with
        | none => simp only [hr]; rfl
        | some t => cases t <;> simp only [hr]

/-- C7 witness: the amended theorem at the `inc` action with a passing
validation and no caller address. -/
theorem no_target_reply_amended_witness :
    handleCall exActions 3 "inc" [Value.vNat 1] none
      = ⟨OutMsg.errorMsg 3 "inc" "No target provided for action call" none, true, false⟩
    ∧ (handleCall exActions 4 "inc" [] none).handlerRan = false := by
  have h := no_target_reply_amended exActions 3 "inc" [Value.vNat 1]
    ⟨some (fun args =>
      match args with
      | [] => some (Thrown.err "amount required")
      | [Value.vBool true] => some Thrown.nonErr
      | _ => none),
     fun _ => Except.ok (Value.vNat 1)⟩ rfl (fun vf hvf => by
      rw [show vf = (fun args =>
        match args with
        | [] => some (Thrown.err "amount required")
        | [Value.vBool true] => some Thrown.nonErr
        | _ => none) from (Option.some.inj hvf).symm])
  exact ⟨h.1, h.2 exActions 4 "inc" []⟩

/-! ### Claim C8 -/

/-- C8: when an existing action's `validate` hook throws, the endpoint
replies with an Error carrying the thrown `Error`'s message — or
`"Unknown error occurred"` when the thrown value is not an `Error` —
and the action handler is never invoked for that call. -/
theorem validate_throw_short_circuits
    (actions : List (String × ActionSpec)) (corrId : Nat) (callId : String)
    (args : List Value) (target : Option String) (act : ActionSpec)
    (vf : List Value → Option Thrown)
    (hact : alGet actions callId = some act)
    (hvf : act.validate = some vf) :
    (∀ m, vf args = some (Thrown.err m) →
      handleCall actions corrId callId args target
        = ⟨OutMsg.errorMsg corrId callId m target, true, false⟩)
    ∧ (vf args = some Thrown.nonErr →
      handleCall actions corrId callId args target
        = ⟨OutMsg.errorMsg corrId callId "Unknown error occurred" target, true, false⟩) := by
  obtain ⟨val, hand⟩ := act
  have hvf2 : val = some vf := hvf
  subst hvf2
  constructor
  · intro m hm
    unfold handleCall
    simp only [hact, hm]
  · intro hm
    unfold handleCall
    simp only [hact, hm]

/-- C8 witness: the `inc` action's validate throwing an `Error` on `[]`
and a non-`Error` value on `[vBool true]`. -/
theorem validate_throw_short_circuits_witness :
    handleCall exActions 9 "inc" [] (some "tabA")
      = ⟨OutMsg.errorMsg 9 "inc" "amount required" (some "tabA"), true, false⟩
    ∧ handleCall exActions 9 "inc" [Value.vBool true] (some "tabA")
      = ⟨OutMsg.errorMsg 9 "inc" "Unknown error occurred" (some "tabA"), true, false⟩ := by
  constructor
  · exact (validate_throw_short_circuits exActions 9 "inc" [] (some "tabA") _ _ rfl rfl).1
      "amount required" rfl
  · exact (validate_throw_short_circuits exActions 9 "inc" [Value.vBool true] (some "tabA")
      _ _ rfl rfl).2 rfl

/-! ### Claim C5 -/

theorem strAppend_left_cancel (a b c : String) (h : a ++ b = a ++ c) : b = c := by
  have hd := congrArg String.data h
  simp [String.data_append] at hd
  exact String.ext hd

/-- Every write attempted by the persist loop targets the prefixed key
of one of the payload's own fields. -/
theorem persistLoop_write_keys (cfg : Config) (pfx : String)
    (backend : StorageArea → String → Value → Option String) (s : Obj) :
    ∀ ev ∈ (persistLoop cfg pfx backend s).1, ∀ area key v, ev = Event.write area key v →
      ∃ k2 ∈ alKeys s, key = pfx ++ k2 := by
  induction s with
  | nil =>
    intro ev h
    simp [persistLoop] at h
  | cons kv rest ih =>
    intro ev h area key v hev
    obtain ⟨k, w⟩ := kv
    cases harea : effArea cfg k with
    | none =>
      simp only [persistLoop, harea] at h
      obtain ⟨k2, hk2, hkey⟩ := ih ev h area key v hev
      exact ⟨k2, List.mem_cons_of_mem _ hk2, hkey⟩
    | some area2 =>
      cases hb : backend area2 (pfx ++ k) w with
      | none =>
        simp only [persistLoop, harea, hb] at h
        rcases List.mem_cons.mp h with h1 | h1
        · rw [h1] at hev
          exact ⟨k, List.mem_cons_self _ _, (Event.write.inj hev).2.1.symm⟩
        · obtain ⟨k2, hk2, hkey⟩ := ih ev h1 area key v hev
          exact ⟨k2, List.mem_cons_of_mem _ hk2, hkey⟩
      | some e =>
        simp only [persistLoop, harea, hb, List.mem_singleton] at h
        rw [h] at hev
        exact ⟨k, List.mem_cons_self _ _, (Event.write.inj hev).2.1.symm⟩

/-- With distinct payload fields (as any JS object has), the persist
loop attempts at most one write per storage key: no retry. -/
theorem persistLoop_write_per_key (cfg : Config) (pfx : String)
    (backend : StorageArea → String → Value → Option String) (s : Obj)
    (hnd : NodupKeys s) (q : String) :
    (persistLoop cfg pfx backend s).1.countP (isWriteTo q) ≤ 1 := by
  induction s with
  | nil => simp [persistLoop]
  | cons kv rest ih =>
    obtain ⟨k, w⟩ := kv
    have hnd2 : (k :: alKeys rest).Nodup := hnd
    have hknotin : k ∉ alKeys rest := (List.nodup_cons.mp hnd2).1
    have hndr : NodupKeys rest := (List.nodup_cons.mp hnd2).2
    cases harea : effArea cfg k with
    | none =>
      simp only [persistLoop, harea]
      exact ih hndr
    | some area =>
      cases hb : backend area (pfx ++ k) w with
      | some e =>
        simp only [persistLoop, harea, hb]
        by_cases hq : isWriteTo q (Event.write area (pfx ++ k) w) = true
        · simp [List.countP_cons, hq]
        · simp [List.countP_cons, hq]
      | none =>
        simp only [persistLoop, harea, hb]
        rw [List.countP_cons]
        by_cases hq : isWriteTo q (Event.write area (pfx ++ k) w) = true
        · have hqk : q = pfx ++ k := by
            have : ((pfx ++ k) == q) = true := by simpa [isWriteTo] using hq
            exact (eq_of_beq this).symm
          have hrest0 : (persistLoop cfg pfx backend rest).1.countP (isWriteTo q) = 0 := by
            apply countP_zero_of_all_false
            intro ev hev
            cases ev with
            | write area2 key2 v2 =>
              obtain ⟨k2, hk2, hkey⟩ := persistLoop_write_keys cfg pfx backend rest _ hev
                area2 key2 v2 rfl
              have hne : key2 ≠ q := by
                rw [hkey, hqk]
                intro hcontra
                exact hknotin (strAppend_left_cancel pfx k2 k hcontra ▸ hk2)
              simpa [isWriteTo] using hne
            | persistCall c => rfl
            | notifyCall c k2 => rfl
            | post t c => rfl
          rw [hrest0, hq]
          simp
        · have hq0 : isWriteTo q (Event.write area (pfx ++ k) w) = false :=
            Bool.not_eq_true _ ▸ Bool.of_not_eq_true hq
          rw [hq0]
          simpa using ih hndr

/-- The persist loop never attempts more writes than the payload has
fields. -/
theorem persistLoop_countP_write_le (cfg : Config) (pfx : String)
    (backend : StorageArea → String → Value → Option String) (s : Obj) :
    (persistLoop cfg pfx backend s).1.countP isWriteEv ≤ s.length := by
  induction s with
  | nil => simp [persistLoop]
  | cons kv rest ih =>
    obtain ⟨k, w⟩ := kv
    cases harea : effArea cfg k with
    | none =>
      simp only [persistLoop, harea, List.length_cons]
      exact Nat.le_succ_of_le ih
    | some area =>
      cases hb : backend area (pfx ++ k) w with
      | some e =>
        simp only [persistLoop, harea, hb, List.length_cons]
        simp [List.countP_cons, isWriteEv]
      | none =>
        simp only [persistLoop, harea, hb, List.length_cons]
        rw [List.countP_cons]
        simp only [isWriteEv, if_true]
        exact Nat.add_le_add ih (Nat.le_refl 1)

/-- C5, counterexample to the claim as stated: when the backend write
rejects during `set`, the promise returned by `set` still resolves
(the inner `setServiceState` call is started without `await`), so the
storage error does not propagate to the caller of `set` — it ends as an
unhandled rejection. -/
theorem set_promise_persistence_counterexample :
    (setOp exCfg "crann_" failBackend noResolve exStore [("counter", Value.vNat 1)] none).promise
      = Except.ok ()
    ∧ (setOp exCfg "crann_" failBackend noResolve exStore
        [("counter", Value.vNat 1)] none).unhandled = ["boom"]
    ∧ failBackend StorageArea.localArea "crann_counter" (Value.vNat 1) = some "boom" := by
  refine ⟨by decide, by decide, by decide⟩

/-- C5 (amended): a rejected storage write during the persist phase of
a changed service update propagates out of `setServiceState` — its
promise rejects with the backend's error, no notification is emitted,
and there is no internal retry (at most one write attempt per payload
field, and never more attempts than fields).  However `set()` does not
await `setServiceState`, so the promise returned by `set` resolves and
the storage error is left as an unhandled rejection. -/
theorem persistence_error_propagation_amended
    (cfg : Config) (pfx : String)
    (backend : StorageArea → String → Value → Option String)
    (resolve : String → Option String) (st : Store) (x : Obj) (e : String)
    (hch : deepEqual st.serviceState (objSpread st.serviceState (setSplit cfg x).2) = false)
    (herr : (persistLoop cfg pfx backend (setSplit cfg x).2).2 = Except.error e) :
    (setServiceState cfg pfx backend resolve st (setSplit cfg x).2).promise = Except.error e
    ∧ (setServiceState cfg pfx backend resolve st (setSplit cfg x).2).events.countP isNotifyEv = 0
    ∧ (NodupKeys (setSplit cfg x).2 → ∀ q,
        (setServiceState cfg pfx backend resolve st
          (setSplit cfg x).2).events.countP (isWriteTo q) ≤ 1)
    ∧ (setServiceState cfg pfx backend resolve st
        (setSplit cfg x).2).events.countP isWriteEv ≤ (setSplit cfg x).2.length
    ∧ (setOp cfg pfx backend resolve st x none).promise = Except.ok ()
    ∧ (setOp cfg pfx backend resolve st x none).unhandled = [e] := by
  have hperr : (persist cfg pfx backend (setSplit cfg x).2).2 = Except.error e := by
    simpa [persist] using herr
  have hsss := setServiceState_changed cfg pfx backend resolve st (setSplit cfg x).2 hch
  rw [hperr] at hsss
  have hwne : (setSplit cfg x).2 ≠ [] := by
    intro h0
    rw [h0] at herr
    simp [persistLoop] at herr
  have hpc : ∀ p : Event → Bool, p (Event.persistCall (setSplit cfg x).2) = false →
      (persist cfg pfx backend (setSplit cfg x).2).1.countP p
        = (persistLoop cfg pfx backend (setSplit cfg x).2).1.countP p := by
    intro p hp
    show ((Event.persistCall (setSplit cfg x).2)
      :: (persistLoop cfg pfx backend (setSplit cfg x).2).1).countP p = _
    rw [List.countP_cons, hp]
    simp
  refine ⟨by rw [hsss], ?_, ?_, ?_, ?_, ?_⟩
  · rw [hsss]
    show (persist cfg pfx backend (setSplit cfg x).2).1.countP isNotifyEv = 0
    rw [hpc isNotifyEv rfl]
    exact persistLoop_countP_notify cfg pfx backend (setSplit cfg x).2
  · intro hnd q
    rw [hsss]
    show (persist cfg pfx backend (setSplit cfg x).2).1.countP (isWriteTo q) ≤ 1
    rw [hpc (isWriteTo q) rfl]
    exact persistLoop_write_per_key cfg pfx backend (setSplit cfg x).2 hnd q
  · rw [hsss]
    show (persist cfg pfx backend (setSplit cfg x).2).1.countP isWriteEv ≤ _
    rw [hpc isWriteEv rfl]
    exact persistLoop_countP_write_le cfg pfx backend (setSplit cfg x).2
  · unfold setOp
    rw [if_pos ((length_bne_zero_iff _).mpr hwne)]
  · unfold setOp
    rw [if_pos ((length_bne_zero_iff _).mpr hwne)]
    have hphase : setInstancePhase cfg resolve st x none = (st, []) := rfl
    rw [hphase]
    show (match (setServiceState cfg pfx backend resolve st (setSplit cfg x).2).promise with
      | Except.error e2 => [e2]
      | Except.ok _ => []) = [e]
    rw [hsss]

/-- C5 witness: the amended theorem at the fixture config with the
always-failing backend and the update `{counter: 1}`. -/
theorem persistence_error_propagation_amended_witness :
    (setServiceState exCfg "crann_" failBackend noResolve exStore
      (setSplit exCfg [("counter", Value.vNat 1)]).2).promise = Except.error "boom"
    ∧ (setOp exCfg "crann_" failBackend noResolve exStore
        [("counter", Value.vNat 1)] none).unhandled = ["boom"] := by
  have h := persistence_error_propagation_amended exCfg "crann_" failBackend noResolve exStore
    [("counter", Value.vNat 1)] "boom" (by decide) (by decide)
  exact ⟨h.1, h.2.2.2.2.2⟩

/-! ### Claim C6 -/

/-- What the hydrate loop stores under `f`: the contribution of the
last matching entry over whatever the accumulator already held. -/
theorem hydrateUpdate_alGet (cfg : Config) (pfx : String) (combined : Obj)
    (entries : Obj) (upd : Obj) (f : String) :
    alGet (hydrateUpdate cfg pfx combined entries upd) f
      = oOr (hydContrib cfg pfx combined entries f) (alGet upd f) := by
  induction entries generalizing upd with
  | nil => rfl
  | cons kv rest ih =>
    obtain ⟨pk, v⟩ := kv
    by_cases hsome : (alGet cfg (stripPfx pfx pk)).isSome = true
    · simp only [hydrateUpdate, hsome, if_true]
      rw [ih, alGet_alInsert]
      show _ = oOr (oOr (hydContrib cfg pfx combined rest f)
        (if stripPfx pfx pk = f then
          (if (alGet cfg f).isSome then some ((alGet combined pk).getD v) else none)
         else none)) (alGet upd f)
      rw [oOr_assoc]
      by_cases hk : stripPfx pfx pk = f
      · rw [hk] at hsome ⊢
        simp [hsome]
      · simp [hk]
    · simp only [hydrateUpdate, hsome, if_false, Bool.false_eq_true]
      rw [ih]
      show _ = oOr (oOr (hydContrib cfg pfx combined rest f)
        (if stripPfx pfx pk = f then
          (if (alGet cfg f).isSome then some ((alGet combined pk).getD v) else none)
         else none)) (alGet upd f)
      rw [oOr_assoc]
      by_cases hk : stripPfx pfx pk = f
      · rw [hk] at hsome
        simp [hsome, hk]
      · simp [hk]

theorem nodupKeys_hydrateUpdate (cfg : Config) (pfx : String) (combined : Obj)
    (entries : Obj) (upd : Obj) (h : NodupKeys upd) :
    NodupKeys (hydrateUpdate cfg pfx combined entries upd) := by
  induction entries generalizing upd with
  | nil => exact h
  | cons kv rest ih =>
    obtain ⟨pk, v⟩ := kv
    by_cases hsome : (alGet cfg (stripPfx pfx pk)).isSome = true
    · simp only [hydrateUpdate, hsome, if_true]
      exact ih _ (nodupKeys_alInsert _ _ _ h)
    · simp only [hydrateUpdate, hsome, if_false, Bool.false_eq_true]
      exact ih _ h

theorem hydContrib_of_filter_nil (cfg : Config) (pfx : String) (combined : Obj)
    (entries : Obj) (f : String)
    (h : entries.filter (fun kv => stripPfx pfx kv.1 == f) = []) :
    hydContrib cfg pfx combined entries f = none := by
  induction entries with
  | nil => rfl
  | cons kv rest ih =>
    obtain ⟨pk, v⟩ := kv
    rw [List.filter_cons] at h
    by_cases hpred : (stripPfx pfx pk == f) = true
    · rw [if_pos hpred] at h
      cases h
    · rw [if_neg hpred] at h
      have hne : stripPfx pfx pk ≠ f := by simpa using hpred
      show oOr (hydContrib cfg pfx combined rest f) _ = none
      rw [ih h, if_neg hne]
      rfl

theorem hydContrib_of_filter_single (cfg : Config) (pfx : String) (combined : Obj)
    (entries : Obj) (f : String) (pk0 : String) (v0 : Value)
    (h : entries.filter (fun kv => stripPfx pfx kv.1 == f) = [(pk0, v0)])
    (hsome : (alGet cfg f).isSome = true) :
    hydContrib cfg pfx combined entries f = some ((alGet combined pk0).getD v0) := by
  induction entries with
  | nil => cases h
  | cons kv rest ih =>
    obtain ⟨pk, v⟩ := kv
    rw [List.filter_cons] at h
    by_cases hpred : (stripPfx pfx pk == f) = true
    · rw [if_pos hpred] at h
      have hhead : (pk, v) = (pk0, v0) := (List.cons.inj h).1
      have hrest : rest.filter (fun kv => stripPfx pfx kv.1 == f) = [] := (List.cons.inj h).2
      have heq : stripPfx pfx pk = f := by simpa using hpred
      show oOr (hydContrib cfg pfx combined rest f) _ = _
      rw [hydContrib_of_filter_nil cfg pfx combined rest f hrest, if_pos heq, if_pos hsome]
      rw [(Prod.mk.inj hhead).1, (Prod.mk.inj hhead).2]
      rfl
    · rw [if_neg hpred] at h
      have hne : stripPfx pfx pk ≠ f := by simpa using hpred
      show oOr (hydContrib cfg pfx combined rest f) _ = _
      rw [ih h, if_neg hne]
      rfl

/-- The service-default object holds the declared default of the first
config entry for `f`, when that entry is a service state item. -/
theorem serviceDefault_alGet (cfg : Config) (f : String) (it : ConfigItem)
    (hf : alGet cfg f = some (CfgEntry.item it)) (hs : isServiceItem it = true) :
    alGet (serviceDefault cfg) f = some it.default := by
  induction cfg with
  | nil => cases hf
  | cons kv rest ih =>
    obtain ⟨k, e⟩ := kv
    by_cases hk : k = f
    · subst hk
      have he : e = CfgEntry.item it := by
        have : alGet ((k, e) :: rest) k = some e := by simp [alGet]
        rw [this] at hf
        exact Option.some.inj hf
      subst he
      simp only [serviceDefault, hs, if_true]
      simp [alGet]
    · have hf2 : alGet rest f = some (CfgEntry.item it) := by
        simpa [alGet, hk] using hf
      cases e with
      | action =>
        simp only [serviceDefault]
        exact ih hf2
      | item it2 =>
        by_cases hs2 : isServiceItem it2 = true
        · simp only [serviceDefault, hs2, if_true]
          simp only [alGet, hk, if_false]
          exact ih hf2
        · simp only [serviceDefault, hs2, if_false, Bool.false_eq_true]
          exact ih hf2

/-- C6, counterexample to the claim as stated: an unprefixed storage
entry that happens to equal a configured field name is overlaid onto
the canonical state, so a field whose prefixed key is absent from both
storage areas does not keep its FieldSpec default. -/
theorem hydrate_prefixed_key_counterexample :
    alGet (hydrateState exCfg "crann_" [("counter", Value.vNat 2)] []) "counter"
      = some (Value.vNat 2)
    ∧ alGet (objSpread [("counter", Value.vNat 2)] []) ("crann_" ++ "counter") = none
    ∧ alGet exCfg "counter" = some (CfgEntry.item
        ⟨Value.vNat 0, some Partition.service, some Persistence.localP⟩)
    ∧ some (Value.vNat 2) ≠ some (Value.vNat 0) := by
  refine ⟨by decide, by decide, by decide, by decide⟩

/-- C6 (amended): after `hydrate()`, for a configured field `f`: when
the only storage entry (session over local) whose prefix-stripped key
is `f` is the prefixed key `storagePrefix ++ f`, the canonical state
holds that stored value; and a configured service field with no storage
entry mapping to it keeps its FieldSpec default.  (As frozen, the claim
fails when an entry other than the prefixed key strips to `f`, e.g. a
bare `f` key.) -/
theorem hydrate_amended (cfg : Config) (pfx : String) (localS sessionS : Obj) (f : String)
    (hndL : NodupKeys localS) :
    (∀ v, (objSpread localS sessionS).filter
        (fun kv => stripPfx pfx kv.1 == f) = [(pfx ++ f, v)] →
      (alGet cfg f).isSome = true →
      alGet (hydrateState cfg pfx localS sessionS) f = some v)
    ∧ ((objSpread localS sessionS).filter (fun kv => stripPfx pfx kv.1 == f) = [] →
      ∀ it, alGet cfg f = some (CfgEntry.item it) → isServiceItem it = true →
      alGet (hydrateState cfg pfx localS sessionS) f = some it.default) := by
  have hndC : NodupKeys (objSpread localS sessionS) := nodupKeys_objSpread _ _ hndL
  have hndU : NodupKeys (hydrateUpdate cfg pfx (objSpread localS sessionS)
      (objSpread localS sessionS) []) :=
    nodupKeys_hydrateUpdate _ _ _ _ [] (by simp [NodupKeys, alKeys])
  have hmain : alGet (hydrateState cfg pfx localS sessionS) f
      = oOr (hydContrib cfg pfx (objSpread localS sessionS) (objSpread localS sessionS) f)
          (alGet (serviceDefault cfg) f) := by
    unfold hydrateState
    rw [alGet_objSpread, objLast_eq_alGet _ _ hndU, hydrateUpdate_alGet]
    show oOr (oOr _ (alGet ([] : Obj) f)) _ = _
    rw [show alGet ([] : Obj) f = none from rfl, oOr_none_right]
  constructor
  · intro v hfilter hsome
    have hmem : (pfx ++ f, v) ∈ objSpread localS sessionS := by
      have : (pfx ++ f, v) ∈ (objSpread localS sessionS).filter
          (fun kv => stripPfx pfx kv.1 == f) := by
        rw [hfilter]
        exact List.mem_singleton.mpr rfl
      exact List.mem_of_mem_filter this
    have hgetc : alGet (objSpread localS sessionS) (pfx ++ f) = some v :=
      alGet_mem _ _ _ hndC hmem
    rw [hmain, hydContrib_of_filter_single cfg pfx _ _ f (pfx ++ f) v hfilter hsome, hgetc]
    rfl
  · intro hfilter it hf hs
    rw [hmain, hydContrib_of_filter_nil cfg pfx _ _ f hfilter, oOr_none,
      serviceDefault_alGet cfg f it hf hs]

/-- C6 witness: the amended theorem at the fixture config — a stored
prefixed `crann_counter` hydrates into `counter`, and with empty
storage `counter` keeps its default. -/
theorem hydrate_amended_witness :
    alGet (hydrateState exCfg "crann_" [("crann_counter", Value.vNat 5)] []) "counter"
      = some (Value.vNat 5)
    ∧ alGet (hydrateState exCfg "crann_" [] []) "counter" = some (Value.vNat 0) := by
  constructor
  · exact (hydrate_amended exCfg "crann_" [("crann_counter", Value.vNat 5)] [] "counter"
      (by decide)).1 (Value.vNat 5) (by decide) (by decide)
  · exact (hydrate_amended exCfg "crann_" [] [] "counter" (by decide)).2 (by decide)
      ⟨Value.vNat 0, some Partition.service, some Persistence.localP⟩ (by decide) (by decide)

end Crann
